import Mathlib

/-!
# ansible-navigator: structural classifier and position resolver

A shallow embedding of `pkg/parser/parser.go` (the classifier that turns a
generic YAML node tree into a typed `AnsibleNode` tree) and of
`pkg/navigator/navigator.go` (the document-kind detection, the position
lookup `locateNode`, the resolution of references and `Navigate`), followed
by theorems about them.

Conventions of the embedding:

* Go `int` line numbers are `Int`. Lines index the lines of one in-memory
  document, far below `2^63`, so no wrap-around is modelled.
* A Go function returning `(*AnsibleNode, error)` is a function into
  `Except Fault (Option AnsibleNode)`: `.ok none` is the pair `nil, nil`,
  `.ok (some n)` a node with a nil error. A runtime panic (a method call on a
  nil `yaml.YAMLNode`, an index out of range) is a `Fault` of its own, so that
  panics and returned errors stay apart.
* A `for` loop over a slice is a recursive function over the list.
* Every function is total and computable: the recursion of the classifier is
  structural in the generic tree, that of the lookup in the typed tree. The
  one loop whose end depends on the path library, that of `splitPath`, is
  bounded by a number of iterations.
* The filesystem, the path library and the YAML decoder are the fields of an
  environment `Env`.

The definitions come first (the generic tree, the typed tree, the classifier,
the lookup, the predicates the theorems are stated with, sample documents),
then the theorems.
-/

namespace AnsibleNavigator

/-! ## Generic YAML nodes -/

/-- Modelled from the spec: the `yaml.YAMLNode` interface of the YAML library,
which is not part of the sources. A node exposes its kind, its line, its
scalar value (empty for non-scalars) and its ordered children; the children
of a mapping alternate key node and value node. The column is never read by
the code and is left out. -/
inductive YAMLNode where
  | mk (kind : Int) (line : Int) (value : String) (children : List YAMLNode)
  deriving Repr

namespace YAMLNode

/-- Method `Kind()`. -/
def Kind : YAMLNode → Int
  | mk kind _ _ _ => kind

/-- Method `Line()`. -/
def Line : YAMLNode → Int
  | mk _ line _ _ => line

/-- Method `Value()`. -/
def Value : YAMLNode → String
  | mk _ _ value _ => value

/-- Method `Children()`. -/
def Children : YAMLNode → List YAMLNode
  | mk _ _ _ children => children

end YAMLNode

/-- Kind constant `documentNode = 1 << 0`. -/
def documentNode : Int := 1

/-- Kind constant `mappingNode = 1 << 1`. -/
def mappingNode : Int := 2

/-- Kind constant `sequenceNode = 1 << 2`. -/
def sequenceNode : Int := 4

/-- Kind constant `scalarNode = 1 << 3`. -/
def scalarNode : Int := 8

/-- Kind constant `aliasNode = 1 << 4`. -/
def aliasNode : Int := 16

/-! ## The typed tree -/

/-- The type `AnsibleNodeType`. -/
inductive AnsibleNodeType where
  | NodeTypePlaybook
  | NodeTypeImportPlaybook
  | NodeTypePlay
  | NodeTypeTaskList
  | NodeTypeTask
  | NodeTypeImportRole
  | NodeTypeRoleList
  | NodeTypeRole
  | NodeTypeIncludeTasks
  deriving DecidableEq, Repr

/-- The type `ReferenceType`. -/
inductive ReferenceType where
  | PlaybookReference
  | RoleReference
  | TaskReference
  deriving DecidableEq, Repr

/-- The struct `AnsibleReference`; its field `Type` is `RefType` here. -/
structure AnsibleReference where
  RefType : ReferenceType
  Value : String
  deriving DecidableEq, Repr

/-- The type `AnsibleDocKind`. -/
inductive AnsibleDocKind where
  | UnknownDoc
  | PlaybookDoc
  | RoleDoc
  deriving DecidableEq, Repr

/-- The struct `AnsibleNode`; its field `Type` is `NodeType` here, and the
pointer field `Reference` is an `Option`. -/
inductive AnsibleNode where
  | mk (StartLine : Int) (EndLine : Int) (NodeType : AnsibleNodeType)
      (Children : List AnsibleNode) (Reference : Option AnsibleReference)
  deriving Repr

namespace AnsibleNode

/-- Field `StartLine`. -/
def StartLine : AnsibleNode → Int
  | mk s _ _ _ _ => s

/-- Field `EndLine`. -/
def EndLine : AnsibleNode → Int
  | mk _ e _ _ _ => e

/-- Field `Type`. -/
def NodeType : AnsibleNode → AnsibleNodeType
  | mk _ _ t _ _ => t

/-- Field `Children`. -/
def Children : AnsibleNode → List AnsibleNode
  | mk _ _ _ cs _ => cs

/-- Field `Reference`. -/
def Reference : AnsibleNode → Option AnsibleReference
  | mk _ _ _ _ r => r

end AnsibleNode

mutual
/-- Every node of a tree: the node itself, then the nodes of its children's
subtrees, in depth-first order. -/
def AnsibleNode.subnodes : AnsibleNode → List AnsibleNode
  | AnsibleNode.mk s e t cs r => AnsibleNode.mk s e t cs r :: subnodesOfList cs
/-- The nodes of the subtrees of a list of trees. -/
def subnodesOfList : List AnsibleNode → List AnsibleNode
  | [] => []
  | c :: cs => c.subnodes ++ subnodesOfList cs
end

/-- The proper descendants of a node: the nodes of its children's subtrees. -/
def AnsibleNode.descendants (n : AnsibleNode) : List AnsibleNode :=
  subnodesOfList n.Children

/-! ## Failures -/

/-- The ways a classifier function fails to return: the errors built by
`fmt.Errorf` in `validateNodeKind`, `validateChildCount` and `Parse`, the two
runtime panics the code can raise, and the error of the YAML decoder that
`Parse` hands on. -/
inductive Fault where
  | unexpectedNodeKind (expected got : Int)
  | unexpectedChildCount (expected got : Int)
  | invalidDocumentType
  | nilDereference
  | indexOutOfRange
  | yamlError
  deriving DecidableEq, Repr

/-- Whether a failure is a runtime panic and not a returned error. -/
def Fault.isPanic : Fault → Bool
  | Fault.nilDereference => true
  | Fault.indexOutOfRange => true
  | _ => false

/-- Use of a pointer or interface value that may be nil: nil panics. -/
def deref {α : Type} : Except Fault (Option α) → Except Fault α
  | Except.error e => Except.error e
  | Except.ok none => Except.error Fault.nilDereference
  | Except.ok (some a) => Except.ok a

/-! ## parser.go: helpers -/

/-- The type `StringSet`, a `map[string]struct{}`, as the list of its
members. -/
abbrev StringSet := List String

/-- Method `StringSet.Add`. -/
def StringSet.Add (s : StringSet) (str : String) : StringSet := str :: s

/-- Method `StringSet.Has`. -/
def StringSet.Has (s : StringSet) (str : String) : Bool := decide (str ∈ s)

/-- Function `validateNodeKind`. -/
def validateNodeKind (node : YAMLNode) (kind : Int) : Except Fault Unit :=
  if node.Kind ≠ kind then Except.error (Fault.unexpectedNodeKind kind node.Kind)
  else Except.ok ()

/-- Function `validateChildCount`. -/
def validateChildCount (node : YAMLNode) (count : Int) : Except Fault Unit :=
  if (node.Children.length : Int) ≠ count then
    Except.error (Fault.unexpectedChildCount count node.Children.length)
  else Except.ok ()

/-- Function `lineCount`: the number of pieces `strings.Split(str, "\n")`
returns. -/
def lineCount (str : String) : Int := (str.toList.splitOn '\n').length

mutual
/-- Function `lastLine`. -/
def lastLine : YAMLNode → Int
  | YAMLNode.mk kind line value children =>
    if kind = scalarNode then line + (lineCount value - 1)
    else lastLineLoop children line
/-- The loop of `lastLine` over the children, `line` being the running
maximum. -/
def lastLineLoop : List YAMLNode → Int → Int
  | [], line => line
  | child :: rest, line =>
    let childLine := lastLine child
    lastLineLoop rest (if childLine > line then childLine else line)
end

/-- The loop of `mapKeyValue` over `children[i], children[i+1]`, two at a
time. A matching key in last position makes `children[i+1]` panic. -/
def mapKeyValueLoop : List YAMLNode → String → Except Fault (Option YAMLNode)
  | [], _ => Except.ok none
  | [k], key =>
    if k.Kind = scalarNode ∧ k.Value = key then Except.error Fault.indexOutOfRange
    else Except.ok none
  | k :: v :: rest, key =>
    if k.Kind = scalarNode ∧ k.Value = key then Except.ok (some v)
    else mapKeyValueLoop rest key

/-- Function `mapKeyValue`; `none` is the nil node returned when no key
matches. -/
def mapKeyValue (node : YAMLNode) (key : String) : Except Fault (Option YAMLNode) :=
  mapKeyValueLoop node.Children key

/-- The loop of `mapKeys` over `children[i]`, two at a time. -/
def mapKeysLoop : List YAMLNode → StringSet
  | [] => []
  | [k] => if k.Kind = scalarNode then StringSet.Add [] k.Value else []
  | k :: _ :: rest =>
    if k.Kind = scalarNode then StringSet.Add (mapKeysLoop rest) k.Value
    else mapKeysLoop rest

/-- Function `mapKeys`. -/
def mapKeys (node : YAMLNode) : StringSet := mapKeysLoop node.Children

/-! ## parser.go: the classifier -/

/-- Function `parseIncludeTasks`. -/
def parseIncludeTasks (node : YAMLNode) : Except Fault (Option AnsibleNode) :=
  if node.Kind ≠ scalarNode then Except.ok none
  else Except.ok (some (AnsibleNode.mk node.Line (lastLine node)
    AnsibleNodeType.NodeTypeIncludeTasks []
    (some { RefType := ReferenceType.TaskReference, Value := node.Value })))

/-- Function `parseImportRole`. The value of the `name` key is read before
anything is checked, so a node without that key panics. -/
def parseImportRole (node : YAMLNode) : Except Fault (Option AnsibleNode) :=
  match deref (mapKeyValue node "name") with
  | Except.error e => Except.error e
  | Except.ok nameNode =>
    if (mapKeys node).Has "tasks_from" then
      match deref (mapKeyValue node "tasks_from") with
      | Except.error e => Except.error e
      | Except.ok tasksFile =>
        Except.ok (some (AnsibleNode.mk node.Line (lastLine node)
          AnsibleNodeType.NodeTypeImportRole []
          (some { RefType := ReferenceType.RoleReference,
                  Value := nameNode.Value ++ "/tasks/" ++ tasksFile.Value })))
    else
      Except.ok (some (AnsibleNode.mk node.Line (lastLine node)
        AnsibleNodeType.NodeTypeImportRole []
        (some { RefType := ReferenceType.RoleReference, Value := nameNode.Value })))

mutual
/-- Function `parseTaskList`. -/
def parseTaskList : YAMLNode → Except Fault (Option AnsibleNode)
  | YAMLNode.mk kind line value children =>
    match parseTaskListLoop children with
    | Except.error e => Except.error e
    | Except.ok tasks =>
      Except.ok (some (AnsibleNode.mk line (lastLine (YAMLNode.mk kind line value children))
        AnsibleNodeType.NodeTypeTaskList tasks none))
/-- The loop of `parseTaskList` over the children: the non-nil tasks, in
order; the first error ends it. -/
def parseTaskListLoop : List YAMLNode → Except Fault (List AnsibleNode)
  | [] => Except.ok []
  | child :: rest =>
    match parseTask child with
    | Except.error e => Except.error e
    | Except.ok task =>
      match parseTaskListLoop rest with
      | Except.error e => Except.error e
      | Except.ok tasks => Except.ok (task.toList ++ tasks)
/-- Function `parseTask`. In the `block` case the two statements
`blockTasks := mapKeyValue(node, "block")` and `parseTaskList(blockTasks)` are
the one function `parseBlock` over the children, which keeps the recursion
structural; `parseBlock_eq` states that it is their composition. -/
def parseTask : YAMLNode → Except Fault (Option AnsibleNode)
  | YAMLNode.mk kind line value children =>
    if (mapKeys (YAMLNode.mk kind line value children)).Has "block" then
      parseBlock children
    else if (mapKeys (YAMLNode.mk kind line value children)).Has "import_role" then
      match deref (mapKeyValue (YAMLNode.mk kind line value children) "import_role") with
      | Except.error e => Except.error e
      | Except.ok importRoleNode => parseImportRole importRoleNode
    else if (mapKeys (YAMLNode.mk kind line value children)).Has "include_role" then
      match deref (mapKeyValue (YAMLNode.mk kind line value children) "include_role") with
      | Except.error e => Except.error e
      | Except.ok includeRoleNode => parseImportRole includeRoleNode
    else if (mapKeys (YAMLNode.mk kind line value children)).Has "include_tasks" then
      match deref (mapKeyValue (YAMLNode.mk kind line value children) "include_tasks") with
      | Except.error e => Except.error e
      | Except.ok includeTasksNode => parseIncludeTasks includeTasksNode
    else Except.ok none
/-- The task list of the value `mapKeyValueLoop` finds for the key `block`
among the children: `parseTaskList` of `mapKeyValue(node, "block")`, a nil
value making `parseTaskList` panic at its first method call. -/
def parseBlock : List YAMLNode → Except Fault (Option AnsibleNode)
  | [] => Except.error Fault.nilDereference
  | [k] =>
    if k.Kind = scalarNode ∧ k.Value = "block" then Except.error Fault.indexOutOfRange
    else Except.error Fault.nilDereference
  | k :: v :: rest =>
    if k.Kind = scalarNode ∧ k.Value = "block" then parseTaskList v
    else parseBlock rest
end

/-- Function `parseRole`. A mapping without the key `role` panics. -/
def parseRole (node : YAMLNode) : Except Fault (Option AnsibleNode) :=
  if node.Kind = scalarNode then
    Except.ok (some (AnsibleNode.mk node.Line (lastLine node)
      AnsibleNodeType.NodeTypeRole []
      (some { RefType := ReferenceType.RoleReference, Value := node.Value })))
  else if node.Kind = mappingNode then
    match deref (mapKeyValue node "role") with
    | Except.error e => Except.error e
    | Except.ok roleNode =>
      Except.ok (some (AnsibleNode.mk node.Line (lastLine node)
        AnsibleNodeType.NodeTypeRole []
        (some { RefType := ReferenceType.RoleReference, Value := roleNode.Value })))
  else Except.ok none

/-- The loop of `parseRoleList` over the children. -/
def parseRoleListLoop : List YAMLNode → Except Fault (List AnsibleNode)
  | [] => Except.ok []
  | childNode :: rest =>
    match parseRole childNode with
    | Except.error e => Except.error e
    | Except.ok role =>
      match parseRoleListLoop rest with
      | Except.error e => Except.error e
      | Except.ok roles => Except.ok (role.toList ++ roles)

/-- Function `parseRoleList`. -/
def parseRoleList (node : YAMLNode) : Except Fault (Option AnsibleNode) :=
  match parseRoleListLoop node.Children with
  | Except.error e => Except.error e
  | Except.ok roles =>
    Except.ok (some (AnsibleNode.mk node.Line (lastLine node)
      AnsibleNodeType.NodeTypeRoleList roles none))

/-- Function `parseImportPlaybook`. -/
def parseImportPlaybook (node : YAMLNode) : Except Fault (Option AnsibleNode) :=
  match deref (mapKeyValue node "import_playbook") with
  | Except.error e => Except.error e
  | Except.ok playbookRefNode =>
    match validateNodeKind playbookRefNode scalarNode with
    | Except.error e => Except.error e
    | Except.ok _ =>
      Except.ok (some (AnsibleNode.mk node.Line (lastLine node)
        AnsibleNodeType.NodeTypeImportPlaybook []
        (some { RefType := ReferenceType.PlaybookReference,
                Value := playbookRefNode.Value })))

/-- The slice `taskListKeys` of `parsePlay`. -/
def taskListKeys : List String := ["tasks", "pre_tasks", "post_tasks"]

/-- The first loop of `parsePlay`, over `taskListKeys`: the task lists
appended to `play.Children`. -/
def parsePlayLoop (node : YAMLNode) (keys : StringSet) :
    List String → Except Fault (List AnsibleNode)
  | [] => Except.ok []
  | taskListKey :: rest =>
    if ¬ keys.Has taskListKey then parsePlayLoop node keys rest
    else
      match deref (mapKeyValue node taskListKey) with
      | Except.error e => Except.error e
      | Except.ok taskListNode =>
        match deref (parseTaskList taskListNode) with
        | Except.error e => Except.error e
        | Except.ok taskList =>
          match parsePlayLoop node keys rest with
          | Except.error e => Except.error e
          | Except.ok taskLists => Except.ok (taskList :: taskLists)

/-- The end of `parsePlay`: the role list appended when the key `roles` is
there. -/
def parsePlayRoles (node : YAMLNode) (keys : StringSet) :
    Except Fault (List AnsibleNode) :=
  if keys.Has "roles" then
    match deref (mapKeyValue node "roles") with
    | Except.error e => Except.error e
    | Except.ok roleListNode =>
      match deref (parseRoleList roleListNode) with
      | Except.error e => Except.error e
      | Except.ok roleList => Except.ok [roleList]
  else Except.ok []

/-- Function `parsePlay`. -/
def parsePlay (node : YAMLNode) : Except Fault (Option AnsibleNode) :=
  match parsePlayLoop node (mapKeys node) taskListKeys with
  | Except.error e => Except.error e
  | Except.ok taskLists =>
    match parsePlayRoles node (mapKeys node) with
    | Except.error e => Except.error e
    | Except.ok roleLists =>
      Except.ok (some (AnsibleNode.mk node.Line (lastLine node)
        AnsibleNodeType.NodeTypePlay (taskLists ++ roleLists) none))

/-- The loop of `parseAnsiblePlaybook` over the elements of the sequence,
with the children gathered so far and the running maximum `endLine`. -/
def parseAnsiblePlaybookLoop :
    List YAMLNode → List AnsibleNode → Int → Except Fault (List AnsibleNode × Int)
  | [], children, endLine => Except.ok (children, endLine)
  | child :: rest, children, endLine =>
    match validateNodeKind child mappingNode with
    | Except.error e => Except.error e
    | Except.ok _ =>
      if (mapKeys child).Has "import_playbook" then
        match deref (parseImportPlaybook child) with
        | Except.error e => Except.error e
        | Except.ok importPlaybook =>
          parseAnsiblePlaybookLoop rest (children ++ [importPlaybook])
            (if importPlaybook.EndLine > endLine then importPlaybook.EndLine else endLine)
      else
        match deref (parsePlay child) with
        | Except.error e => Except.error e
        | Except.ok play =>
          parseAnsiblePlaybookLoop rest (children ++ [play])
            (if play.EndLine > endLine then play.EndLine else endLine)

/-- Function `parseAnsiblePlaybook`. -/
def parseAnsiblePlaybook (node : YAMLNode) : Except Fault (Option AnsibleNode) :=
  match validateNodeKind node documentNode with
  | Except.error e => Except.error e
  | Except.ok _ =>
    match validateChildCount node 1 with
    | Except.error e => Except.error e
    | Except.ok _ =>
      match node.Children with
      | [] => Except.error Fault.indexOutOfRange
      | listParent :: _ =>
        match validateNodeKind listParent sequenceNode with
        | Except.error e => Except.error e
        | Except.ok _ =>
          match parseAnsiblePlaybookLoop listParent.Children [] listParent.Line with
          | Except.error e => Except.error e
          | Except.ok (children, endLine) =>
            Except.ok (some (AnsibleNode.mk listParent.Line endLine
              AnsibleNodeType.NodeTypePlaybook children none))

/-- Function `Parse`, from the node tree `yaml.UnmarshalWithNode` returned on:
the classification of a decoded document. `docNode.Children()[0]` panics on
a document without children. -/
def Parse (docNode : YAMLNode) (kind : AnsibleDocKind) : Except Fault (Option AnsibleNode) :=
  match kind with
  | AnsibleDocKind.PlaybookDoc => parseAnsiblePlaybook docNode
  | AnsibleDocKind.RoleDoc =>
    match docNode.Children with
    | [] => Except.error Fault.indexOutOfRange
    | first :: _ => parseTaskList first
  | AnsibleDocKind.UnknownDoc => Except.error Fault.invalidDocumentType

/-! ## navigator.go: position lookup -/

/-- Function `inRange`. -/
def inRange (num low high : Int) : Bool := decide (num ≥ low ∧ num ≤ high)

mutual
/-- Function `locateNode` on a non-nil root; `none` is the nil result. -/
def locateNode : AnsibleNode → Int → Option AnsibleNode
  | AnsibleNode.mk s e t cs r, row =>
    if inRange row s e then
      match locateNodeLoop cs row with
      | some childNode => some childNode
      | none => some (AnsibleNode.mk s e t cs r)
    else none
/-- The loop of `locateNode` over the children: the first non-nil result. -/
def locateNodeLoop : List AnsibleNode → Int → Option AnsibleNode
  | [], _ => none
  | child :: rest, row =>
    match locateNode child row with
    | some childNode => some childNode
    | none => locateNodeLoop rest row
end

mutual
/-- The lookup as the specification words it: nothing when the row is outside
the root's interval; otherwise the result of the lookup in the first child, in
order, whose own interval contains the row; the root itself when no child's
interval contains the row. -/
def locateSpec : AnsibleNode → Int → Option AnsibleNode
  | AnsibleNode.mk s e t cs r, row =>
    if row < s ∨ row > e then none
    else
      match locateSpecScan cs row with
      | some deeper => some deeper
      | none => some (AnsibleNode.mk s e t cs r)
/-- The scan of `locateSpec` over the children for the first one whose
interval contains the row. -/
def locateSpecScan : List AnsibleNode → Int → Option AnsibleNode
  | [], _ => none
  | c :: cs, row =>
    if c.StartLine ≤ row ∧ row ≤ c.EndLine then locateSpec c row
    else locateSpecScan cs row
end

/-- The closed interval of a node contains the row. -/
def AnsibleNode.covers (n : AnsibleNode) (row : Int) : Prop :=
  n.StartLine ≤ row ∧ row ≤ n.EndLine

instance (n : AnsibleNode) (row : Int) : Decidable (n.covers row) := by
  unfold AnsibleNode.covers; exact inferInstance

/-- Every parent's interval contains the interval of each of its children,
throughout the tree. -/
def AnsibleNode.nested (root : AnsibleNode) : Prop :=
  ∀ p ∈ root.subnodes, ∀ c ∈ p.Children,
    p.StartLine ≤ c.StartLine ∧ c.EndLine ≤ p.EndLine

mutual
/-- Every node of a generic tree, in document order: the node itself, then
the nodes of its children's subtrees. -/
def YAMLNode.subnodes : YAMLNode → List YAMLNode
  | YAMLNode.mk k l v cs => YAMLNode.mk k l v cs :: yamlSubnodesOfList cs
/-- The nodes of the subtrees of a list of generic trees. -/
def yamlSubnodesOfList : List YAMLNode → List YAMLNode
  | [] => []
  | c :: cs => c.subnodes ++ yamlSubnodesOfList cs
end

/-- The proper descendants of a generic node, in document order. -/
def YAMLNode.descendants (n : YAMLNode) : List YAMLNode :=
  yamlSubnodesOfList n.Children

/-- What every tree built by a YAML parser satisfies and the classifier never
checks: a scalar node has no children, and no child starts on a line before
its parent's. -/
def YAMLNode.wellFormed (root : YAMLNode) : Prop :=
  ∀ n ∈ root.subnodes,
    (n.Kind = scalarNode → n.Children = []) ∧ ∀ c ∈ n.Children, n.Line ≤ c.Line

/-- A typed node has the line span of a generic node: it starts on that
node's line and ends on its last line. -/
def Spans (g : YAMLNode) (a : AnsibleNode) : Prop :=
  a.StartLine = g.Line ∧ a.EndLine = lastLine g

/-- The node types that name another file or role. -/
def AnsibleNodeType.mayRefer : AnsibleNodeType → Bool
  | AnsibleNodeType.NodeTypeImportPlaybook => true
  | AnsibleNodeType.NodeTypeImportRole => true
  | AnsibleNodeType.NodeTypeRole => true
  | AnsibleNodeType.NodeTypeIncludeTasks => true
  | _ => false

/-- The provenance of one typed node within a generic tree: the node has the
span of some generic node, each of its children has the span of a proper
descendant of that generic node, and it carries a reference only if its type
may. -/
def NodeTraced (g : YAMLNode) (p : AnsibleNode) : Prop :=
  (∃ gp ∈ g.subnodes, Spans gp p ∧
    ∀ c ∈ p.Children, ∃ gc ∈ gp.descendants, Spans gc c) ∧
  (p.NodeType.mayRefer = false → p.Reference = none)

/-- Every node of a typed tree has its provenance in the generic tree. -/
def Traced (g : YAMLNode) (a : AnsibleNode) : Prop :=
  ∀ p ∈ a.subnodes, NodeTraced g p

/-- The running maximum `endLine` of `parseAnsiblePlaybook` after the given
children, from the value `endLine` it had before them. -/
def runningEndLine : List AnsibleNode → Int → Int
  | [], endLine => endLine
  | c :: cs, endLine => runningEndLine cs (if c.EndLine > endLine then c.EndLine else endLine)

/-- The node `parseAnsiblePlaybook` builds for one element of the sequence: a
playbook import when the element has the key `import_playbook`, a play
otherwise. -/
def playbookChild (e : YAMLNode) (c : AnsibleNode) : Prop :=
  e.Kind = mappingNode ∧
  (((mapKeys e).Has "import_playbook" = true ∧ parseImportPlaybook e = Except.ok (some c)) ∨
   ((mapKeys e).Has "import_playbook" = false ∧ parsePlay e = Except.ok (some c)))

/-- The typed node is the task list built from the value the mapping pairs
with the key. -/
def taskListOfKey (node : YAMLNode) (key : String) (t : AnsibleNode) : Prop :=
  ∃ v, deref (mapKeyValue node key) = Except.ok v ∧ parseTaskList v = Except.ok (some t)

/-- The typed node is the role list built from the value the mapping pairs
with the key. -/
def roleListOfKey (node : YAMLNode) (key : String) (t : AnsibleNode) : Prop :=
  ∃ v, deref (mapKeyValue node key) = Except.ok v ∧ parseRoleList v = Except.ok (some t)

/-- Whether a list is empty is decidable without comparing its elements. -/
instance decidableEqNil {α : Type} (l : List α) : Decidable (l = []) :=
  match l with
  | [] => isTrue rfl
  | _ :: _ => isFalse (fun h => List.noConfusion h)

/-- The typed node is the task list or the role list built from the generic
node. -/
def listBuiltFrom (v : YAMLNode) (c : AnsibleNode) : Prop :=
  parseTaskList v = Except.ok (some c) ∨ parseRoleList v = Except.ok (some c)

/-- The children of a Play node follow the order of the keys in the play
mapping: they are built, in order, from a subsequence of the mapping's
children. -/
def childrenFollowKeys (m : YAMLNode) (p : AnsibleNode) : Prop :=
  ∃ vs, List.Sublist vs m.Children ∧ List.Forall₂ listBuiltFrom vs p.Children

/-- The children of a mapping node with the given key/value pairs: key node
and value node alternating. -/
def flattenPairs : List (YAMLNode × YAMLNode) → List YAMLNode
  | [] => []
  | p :: ps => p.1 :: p.2 :: flattenPairs ps

/-- No scalar key occurs twice among the key/value pairs. -/
def keysDistinct (pairs : List (YAMLNode × YAMLNode)) : Prop :=
  pairs.Pairwise (fun p q =>
    ¬ (p.1.Kind = scalarNode ∧ q.1.Kind = scalarNode ∧ p.1.Value = q.1.Value))

instance (pairs : List (YAMLNode × YAMLNode)) : Decidable (keysDistinct pairs) := by
  unfold keysDistinct; exact inferInstance

/-! ## Sample inputs -/

/-- A scalar node. -/
def scalar (line : Int) (value : String) : YAMLNode :=
  YAMLNode.mk scalarNode line value []

/-- A mapping node of the given children, keys and values alternating. -/
def mapping (line : Int) (children : List YAMLNode) : YAMLNode :=
  YAMLNode.mk mappingNode line "" children

/-- A sequence node of the given elements. -/
def sequence (line : Int) (children : List YAMLNode) : YAMLNode :=
  YAMLNode.mk sequenceNode line "" children

/-- A document node. -/
def document (line : Int) (children : List YAMLNode) : YAMLNode :=
  YAMLNode.mk documentNode line "" children

/-- The generic tree of the playbook
`- hosts: all` / `  roles:` / `    - myrole` (lines 0 to 2). -/
def sampleDoc : YAMLNode :=
  document 0 [sequence 0 [mapping 0
    [scalar 0 "hosts", scalar 0 "all", scalar 1 "roles", sequence 2 [scalar 2 "myrole"]]]]

/-- The typed tree of the playbook
`- hosts: all` / `  roles:` / `    - myrole` (lines 0 to 2). -/
def sampleTree : AnsibleNode :=
  AnsibleNode.mk 0 2 AnsibleNodeType.NodeTypePlaybook
    [AnsibleNode.mk 0 2 AnsibleNodeType.NodeTypePlay
      [AnsibleNode.mk 2 2 AnsibleNodeType.NodeTypeRoleList
        [AnsibleNode.mk 2 2 AnsibleNodeType.NodeTypeRole []
          (some { RefType := ReferenceType.RoleReference, Value := "myrole" })]
        none]
      none]
    none

/-- The play of `siteDoc`: the mapping on lines 1 to 12, with the keys
`hosts`, `pre_tasks`, `roles`, `tasks` in that order. -/
def sitePlay : YAMLNode :=
  mapping 1
    [scalar 1 "hosts", scalar 1 "web",
     scalar 2 "pre_tasks",
      sequence 3 [mapping 3 [scalar 3 "include_tasks", scalar 3 "setup.yml"]],
     scalar 4 "roles",
      sequence 5 [scalar 5 "nginx", mapping 6 [scalar 6 "role", scalar 6 "app"]],
     scalar 7 "tasks",
      sequence 8
        [mapping 8 [scalar 8 "block",
          sequence 9 [mapping 9 [scalar 9 "import_role",
            mapping 10 [scalar 10 "name", scalar 10 "common",
                        scalar 11 "tasks_from", scalar 11 "install"]]]],
         mapping 12 [scalar 12 "debug", scalar 12 "msg=done"]]]

/-- The generic tree of the playbook (lines 0 to 12)
```
- import_playbook: common.yml
- hosts: web
  pre_tasks:
    - include_tasks: setup.yml
  roles:
    - nginx
    - role: app
  tasks:
    - block:
        - import_role:
            name: common
            tasks_from: install
    - debug: msg=done
```
-/
def siteDoc : YAMLNode :=
  document 0 [sequence 0
    [mapping 0 [scalar 0 "import_playbook", scalar 0 "common.yml"], sitePlay]]

/-- The typed node `parsePlay` builds for `sitePlay`. -/
def sitePlayTree : AnsibleNode :=
  AnsibleNode.mk 1 12 AnsibleNodeType.NodeTypePlay
    [AnsibleNode.mk 8 12 AnsibleNodeType.NodeTypeTaskList
      [AnsibleNode.mk 9 11 AnsibleNodeType.NodeTypeTaskList
        [AnsibleNode.mk 10 11 AnsibleNodeType.NodeTypeImportRole []
          (some { RefType := ReferenceType.RoleReference, Value := "common/tasks/install" })]
        none]
      none,
     AnsibleNode.mk 3 3 AnsibleNodeType.NodeTypeTaskList
      [AnsibleNode.mk 3 3 AnsibleNodeType.NodeTypeIncludeTasks []
        (some { RefType := ReferenceType.TaskReference, Value := "setup.yml" })]
      none,
     AnsibleNode.mk 5 6 AnsibleNodeType.NodeTypeRoleList
      [AnsibleNode.mk 5 5 AnsibleNodeType.NodeTypeRole []
        (some { RefType := ReferenceType.RoleReference, Value := "nginx" }),
       AnsibleNode.mk 6 6 AnsibleNodeType.NodeTypeRole []
        (some { RefType := ReferenceType.RoleReference, Value := "app" })]
      none]
    none

/-- The typed tree `Parse` builds for `siteDoc`. -/
def siteTree : AnsibleNode :=
  AnsibleNode.mk 0 12 AnsibleNodeType.NodeTypePlaybook
    [AnsibleNode.mk 0 0 AnsibleNodeType.NodeTypeImportPlaybook []
      (some { RefType := ReferenceType.PlaybookReference, Value := "common.yml" }),
     sitePlayTree]
    none

/-- The pairs of the mapping of a play with the keys `hosts`, `roles` and
`tasks`. -/
def playPairs : List (YAMLNode × YAMLNode) :=
  [(scalar 0 "hosts", scalar 0 "all"),
   (scalar 1 "roles", sequence 2 [scalar 2 "nginx"]),
   (scalar 3 "tasks", sequence 4 [mapping 4 [scalar 4 "include_tasks", scalar 4 "a.yml"]])]

/-- The pairs of `playPairs` in another order. -/
def playPairsPermuted : List (YAMLNode × YAMLNode) :=
  [(scalar 3 "tasks", sequence 4 [mapping 4 [scalar 4 "include_tasks", scalar 4 "a.yml"]]),
   (scalar 0 "hosts", scalar 0 "all"),
   (scalar 1 "roles", sequence 2 [scalar 2 "nginx"])]

/-- The pairs of the mapping of a play that has the key `tasks` twice:
```
- hosts: all
  tasks:
    - include_tasks: a.yml
  tasks:
    - include_tasks: b.yml
```
-/
def repeatedKeyPairs : List (YAMLNode × YAMLNode) :=
  [(scalar 0 "hosts", scalar 0 "all"),
   (scalar 1 "tasks", sequence 2 [mapping 2 [scalar 2 "include_tasks", scalar 2 "a.yml"]]),
   (scalar 3 "tasks", sequence 4 [mapping 4 [scalar 4 "include_tasks", scalar 4 "b.yml"]])]

/-- The pairs of `repeatedKeyPairs` with the two `tasks` entries exchanged. -/
def repeatedKeyPairsSwapped : List (YAMLNode × YAMLNode) :=
  [(scalar 0 "hosts", scalar 0 "all"),
   (scalar 3 "tasks", sequence 4 [mapping 4 [scalar 4 "include_tasks", scalar 4 "b.yml"]]),
   (scalar 1 "tasks", sequence 2 [mapping 2 [scalar 2 "include_tasks", scalar 2 "a.yml"]])]

/-- The generic tree of the role task file `- import_role: common`, whose
`import_role` value is a scalar and so has no key `name`. -/
def importRoleScalarDoc : YAMLNode :=
  document 0 [sequence 0 [mapping 0 [scalar 0 "import_role", scalar 0 "common"]]]

/-- The generic tree of the playbook
`- hosts: all` / `  roles:` / `    - name: nginx`, whose role entry is a
mapping without the key `role`. -/
def roleWithoutKeyDoc : YAMLNode :=
  document 0 [sequence 0 [mapping 0
    [scalar 0 "hosts", scalar 0 "all",
     scalar 1 "roles", sequence 2 [mapping 2 [scalar 2 "name", scalar 2 "nginx"]]]]]

/-- The generic tree of a role task file whose root is the mapping
`name: x` and not a sequence. -/
def mappingRootDoc : YAMLNode :=
  document 0 [mapping 0 [scalar 0 "name", scalar 0 "x"]]

/-- The generic tree of the playbook
`- hosts: all` / `- import_playbook:` / `    file: other.yml`, whose second
element pairs `import_playbook` with a mapping. -/
def importMappingDoc : YAMLNode :=
  document 0 [sequence 0
    [mapping 0 [scalar 0 "hosts", scalar 0 "all"],
     mapping 1 [scalar 1 "import_playbook",
                mapping 2 [scalar 2 "file", scalar 2 "other.yml"]]]]

/-- The generic tree of the task list
```
- include_tasks: setup.yml
- include_tasks:
    file: other.yml
- import_role:
    tasks_from: install
    name: common
```
at lines 0 to 4: its second entry pairs `include_tasks` with a mapping. -/
def sampleTasks : YAMLNode :=
  sequence 0
    [mapping 0 [scalar 0 "include_tasks", scalar 0 "setup.yml"],
     mapping 1 [scalar 1 "include_tasks", mapping 2 [scalar 2 "file", scalar 2 "other.yml"]],
     mapping 3 [scalar 3 "import_role",
       mapping 4 [scalar 4 "tasks_from", scalar 4 "install", scalar 5 "name", scalar 5 "common"]]]

/-- The value of the `import_role` key of the third entry of `sampleTasks`:
the mapping `tasks_from: install` / `name: common`. -/
def sampleImportRole : YAMLNode :=
  mapping 4 [scalar 4 "tasks_from", scalar 4 "install", scalar 5 "name", scalar 5 "common"]

/-! ## navigator.go: the environment, document kinds and references -/

/-- Modelled from the spec: the external collaborators of the navigator, which
are not part of the sources. `Stat` tells whether `os.Stat` returns no error,
`ReadFile` is `ioutil.ReadFile`, `UnmarshalList` and `UnmarshalMap` are
`yaml.UnmarshalWithNode` into a list and into a map (`none` for an error),
`Base`, `Dir` and `Join` are those of `path/filepath`, and `EvalSymlinks` is
`filepath.EvalSymlinks` (`none` for an error). -/
structure Env where
  Stat : String → Bool
  ReadFile : String → Option String
  UnmarshalList : String → Option YAMLNode
  UnmarshalMap : String → Option YAMLNode
  Base : String → String
  Dir : String → String
  Join : List String → String
  EvalSymlinks : String → Option String

/-- The loop of `splitPath`, bounded by `fuel` iterations: `none` when the
loop has not ended within the bound. -/
def splitPathLoop (env : Env) : Nat → String → List String → Option (List String)
  | 0, toSplit, result =>
    if toSplit ≠ "." ∧ toSplit ≠ "/" then none else some result
  | fuel + 1, toSplit, result =>
    if toSplit ≠ "." ∧ toSplit ≠ "/" then
      splitPathLoop env fuel (env.Dir toSplit)
        (if (env.Base toSplit).length > 0 then [env.Base toSplit] ++ result else result)
    else some result

/-- Function `splitPath`. -/
def splitPath (env : Env) (fuel : Nat) (filePath : String) : Option (List String) :=
  splitPathLoop env fuel (env.Dir filePath) [env.Base filePath]

/-- The loop of `determineDocKind` over the indices `0 .. count-2`. -/
def determineDocKindLoop (dirs : List String) : List Nat → AnsibleDocKind
  | [] => AnsibleDocKind.UnknownDoc
  | i :: rest =>
    if dirs[i]? = some "playbooks" then AnsibleDocKind.PlaybookDoc
    else determineDocKindLoop dirs rest

/-- Function `determineDocKind` from `dirs`, the segments `splitPath`
returned. -/
def determineDocKindDirs (dirs : List String) : AnsibleDocKind :=
  if dirs.length ≥ 4 ∧ dirs[dirs.length - 4]? = some "roles" ∧
      dirs[dirs.length - 2]? = some "tasks" then AnsibleDocKind.RoleDoc
  else determineDocKindLoop dirs (List.range (dirs.length - 1))

/-- Function `determineDocKind`. -/
def determineDocKind (env : Env) (fuel : Nat) (filePath : String) : Option AnsibleDocKind :=
  (splitPath env fuel filePath).map determineDocKindDirs

/-- The segments match `.../roles/<name>/tasks/<file>`. -/
def rolePattern (s : List String) : Prop :=
  4 ≤ s.length ∧ s[s.length - 4]? = some "roles" ∧ s[s.length - 2]? = some "tasks"

instance (s : List String) : Decidable (rolePattern s) := by
  unfold rolePattern; exact inferInstance

/-- Some segment before the last is `playbooks`. -/
def playbookPattern (s : List String) : Prop :=
  ∃ i, i + 1 < s.length ∧ s[i]? = some "playbooks"

/-- Function `getReferencedFile`; the empty string is its "nothing". -/
def getReferencedFile (env : Env) (path : String) (ref : AnsibleReference) : String :=
  let referencedPath :=
    match ref.RefType with
    | ReferenceType.PlaybookReference => env.Join [env.Dir path, ref.Value]
    | ReferenceType.TaskReference => env.Join [env.Dir path, ref.Value]
    | ReferenceType.RoleReference =>
      let mainPath := env.Join [env.Join [env.Dir path, "roles"], ref.Value, "tasks", "main.yml"]
      let candidate :=
        if ¬ env.Stat mainPath then env.Join [env.Join [env.Dir path, "roles"], ref.Value]
        else mainPath
      match env.EvalSymlinks candidate with
      | some resolved => resolved
      | none => ""
  if referencedPath ≠ "" then
    if env.Stat referencedPath then referencedPath else ""
  else ""

/-- The candidate `<dir(path)>/roles/<role>/tasks/main.yml`. -/
def roleMainPath (env : Env) (path role : String) : String :=
  env.Join [env.Join [env.Dir path, "roles"], role, "tasks", "main.yml"]

/-- The candidate `<dir(path)>/roles/<role>`. -/
def roleDirPath (env : Env) (path role : String) : String :=
  env.Join [env.Join [env.Dir path, "roles"], role]

/-- The candidate `getReferencedFile` hands to the resolution of symbolic
links: `tasks/main.yml` of the role when it exists, the role directory
otherwise. -/
def roleCandidate (env : Env) (path role : String) : String :=
  if env.Stat (roleMainPath env path role) then roleMainPath env path role
  else roleDirPath env path role

/-- What the filesystem behind an environment guarantees: the empty path does
not exist, the resolution of symbolic links succeeds on every existing path,
and it succeeds only on existing paths and gives an existing path. -/
def Env.coherent (env : Env) : Prop :=
  env.Stat "" = false ∧
  (∀ p, env.Stat p = true → ∃ q, env.EvalSymlinks p = some q) ∧
  (∀ p q, env.EvalSymlinks p = some q → env.Stat p = true ∧ env.Stat q = true)

/-- Function `Parse` with the decoding it starts with: the document is decoded
as a list, then, if that fails, as a map. -/
def ParseDocument (env : Env) (doc : String) (kind : AnsibleDocKind) :
    Except Fault (Option AnsibleNode) :=
  match env.UnmarshalList doc with
  | some docNode => Parse docNode kind
  | none =>
    match env.UnmarshalMap doc with
    | some docNode => Parse docNode kind
    | none => Except.error Fault.yamlError

/-- Function `locateNode` on a root pointer: the nil root panics at
`node.StartLine`. -/
def locateNodePtr (root : Option AnsibleNode) (row : Int) : Except Fault (Option AnsibleNode) :=
  match root with
  | none => Except.error Fault.nilDereference
  | some node => Except.ok (locateNode node row)

/-- The ways `Navigate` fails to return a path: its two errors, a panic, and
the loop of `splitPath` not ending within the bound of the model. -/
inductive NavigateFault where
  | cannotStat
  | cannotRead
  | panic (fault : Fault)
  | unfinished
  deriving DecidableEq, Repr

/-- Method `Navigate` of the struct with the fields `File` and `Row` (the
fields `Column` and `Debug` change nothing in the result). The error `Parse`
returns is assigned and never read, so after an error the lookup runs on the
nil node. -/
def Navigate (env : Env) (fuel : Nat) (File : String) (Row : Int) :
    Except NavigateFault String :=
  if ¬ env.Stat File then Except.error NavigateFault.cannotStat
  else
    match env.ReadFile File with
    | none => Except.error NavigateFault.cannotRead
    | some fileContent =>
      match determineDocKind env fuel File with
      | none => Except.error NavigateFault.unfinished
      | some docKind =>
        if docKind = AnsibleDocKind.UnknownDoc then Except.ok ""
        else
          let ansibleNode : Except Fault (Option AnsibleNode) :=
            match ParseDocument env fileContent docKind with
            | Except.ok node => Except.ok node
            | Except.error err => if err.isPanic then Except.error err else Except.ok none
          match ansibleNode with
          | Except.error err => Except.error (NavigateFault.panic err)
          | Except.ok root =>
            match locateNodePtr root (Row - 1) with
            | Except.error err => Except.error (NavigateFault.panic err)
            | Except.ok none => Except.ok ""
            | Except.ok (some locationNode) =>
              match locationNode.Reference with
              | none => Except.ok ""
              | some ref => Except.ok (getReferencedFile env File ref)

/-- An environment with the one file `playbooks/site.yml`, whose content is
the mapping `hosts: all`; decoding it as a list fails, decoding it as a map
gives a document with a mapping child. `Base` and `Dir` have the values of
`path/filepath` on the paths used. -/
def mappingFileEnv : Env where
  Stat := fun p => decide (p = "playbooks/site.yml")
  ReadFile := fun p => if p = "playbooks/site.yml" then some "hosts: all\n" else none
  UnmarshalList := fun _ => none
  UnmarshalMap := fun doc =>
    if doc = "hosts: all\n" then
      some (document 0 [mapping 0 [scalar 0 "hosts", scalar 0 "all"]])
    else none
  Base := fun p => if p = "playbooks/site.yml" then "site.yml" else p
  Dir := fun p => if p = "playbooks/site.yml" then "playbooks" else "."
  Join := fun parts => "/".intercalate parts
  EvalSymlinks := fun p => some p

/-- An environment in which `playbooks/roles/web/tasks/main.yml` is a symbolic
link to `/srv/roles/web/tasks/main.yml`; both exist. -/
def symlinkEnv : Env where
  Stat := fun p =>
    decide (p = "playbooks/roles/web/tasks/main.yml" ∨ p = "/srv/roles/web/tasks/main.yml")
  ReadFile := fun _ => none
  UnmarshalList := fun _ => none
  UnmarshalMap := fun _ => none
  Base := fun p => p
  Dir := fun _ => "playbooks"
  Join := fun parts => "/".intercalate parts
  EvalSymlinks := fun p =>
    if p = "playbooks/roles/web/tasks/main.yml" ∨ p = "/srv/roles/web/tasks/main.yml" then
      some "/srv/roles/web/tasks/main.yml"
    else none

/-- An environment without symbolic links in which
`playbooks/roles/web/tasks/main.yml` exists. -/
def plainEnv : Env where
  Stat := fun p => decide (p = "playbooks/roles/web/tasks/main.yml")
  ReadFile := fun _ => none
  UnmarshalList := fun _ => none
  UnmarshalMap := fun _ => none
  Base := fun p => p
  Dir := fun _ => "playbooks"
  Join := fun parts => "/".intercalate parts
  EvalSymlinks := fun p => if p = "playbooks/roles/web/tasks/main.yml" then some p else none

/-- The generic tree of the playbook
`- hosts: all` / `  roles:` / `    - name: nginx` / `- oops`: its second
element is a scalar, and the role entry of its first element is a mapping
without the key `role`. -/
def panicBeforeErrorDoc : YAMLNode :=
  document 0 [sequence 0
    [mapping 0
      [scalar 0 "hosts", scalar 0 "all",
       scalar 1 "roles", sequence 2 [mapping 2 [scalar 2 "name", scalar 2 "nginx"]]],
     scalar 3 "oops"]]

/-- The generic tree of the playbook `- hosts: all` / `- oops`, whose second
element is a scalar. -/
def scalarElementDoc : YAMLNode :=
  document 0 [sequence 0 [mapping 0 [scalar 0 "hosts", scalar 0 "all"], scalar 1 "oops"]]

/-- A task list element with the keys `block` and `include_tasks`, the
latter paired with a mapping:
```
- block:
    - include_tasks: a.yml
  include_tasks:
    file: b.yml
```
-/
def blockAndIncludeTask : YAMLNode :=
  mapping 0
    [scalar 0 "block", sequence 1 [mapping 1 [scalar 1 "include_tasks", scalar 1 "a.yml"]],
     scalar 2 "include_tasks", mapping 3 [scalar 3 "file", scalar 3 "b.yml"]]

/-- A task list element with a name and an `include_tasks` whose value is a
mapping: `- name: setup` / `  include_tasks:` / `    file: b.yml`. -/
def namedIncludeMapping : YAMLNode :=
  mapping 0
    [scalar 0 "name", scalar 0 "setup",
     scalar 1 "include_tasks", mapping 2 [scalar 2 "file", scalar 2 "b.yml"]]

/-- A task list element with a name and an `include_tasks` whose value is a
scalar: `- name: setup` / `  include_tasks: setup.yml`. -/
def namedIncludeScalar : YAMLNode :=
  mapping 0
    [scalar 0 "name", scalar 0 "setup",
     scalar 1 "include_tasks", scalar 1 "setup.yml"]

/-! ## Induction over trees -/

/-- Induction over a typed tree: a property holds of every node when it
holds of a node as soon as it holds of all its children. -/
theorem AnsibleNode.ast_induction {motive : AnsibleNode → Prop}
    (step : ∀ s e t cs r, (∀ c ∈ cs, motive c) → motive (AnsibleNode.mk s e t cs r))
    (n : AnsibleNode) : motive n :=
  @AnsibleNode.rec motive (fun cs => ∀ c ∈ cs, motive c)
    (fun s e t cs r ih => step s e t cs r ih)
    (fun c hc => by cases hc)
    (fun c cs hc hcs d hd => by
      rcases List.mem_cons.mp hd with h | h
      · exact h ▸ hc
      · exact hcs d h)
    n

/-- Induction over a generic tree. -/
theorem YAMLNode.yaml_induction {motive : YAMLNode → Prop}
    (step : ∀ k l v cs, (∀ c ∈ cs, motive c) → motive (YAMLNode.mk k l v cs))
    (n : YAMLNode) : motive n :=
  @YAMLNode.rec motive (fun cs => ∀ c ∈ cs, motive c)
    (fun k l v cs ih => step k l v cs ih)
    (fun c hc => by cases hc)
    (fun c cs hc hcs d hd => by
      rcases List.mem_cons.mp hd with h | h
      · exact h ▸ hc
      · exact hcs d h)
    n

/-! ## Fields of a constructed node -/

@[simp] theorem AnsibleNode.StartLine_mk (s e : Int) (t : AnsibleNodeType)
    (cs : List AnsibleNode) (r : Option AnsibleReference) :
    (AnsibleNode.mk s e t cs r).StartLine = s := rfl

@[simp] theorem AnsibleNode.EndLine_mk (s e : Int) (t : AnsibleNodeType)
    (cs : List AnsibleNode) (r : Option AnsibleReference) :
    (AnsibleNode.mk s e t cs r).EndLine = e := rfl

@[simp] theorem AnsibleNode.NodeType_mk (s e : Int) (t : AnsibleNodeType)
    (cs : List AnsibleNode) (r : Option AnsibleReference) :
    (AnsibleNode.mk s e t cs r).NodeType = t := rfl

@[simp] theorem AnsibleNode.Children_mk (s e : Int) (t : AnsibleNodeType)
    (cs : List AnsibleNode) (r : Option AnsibleReference) :
    (AnsibleNode.mk s e t cs r).Children = cs := rfl

@[simp] theorem AnsibleNode.Reference_mk (s e : Int) (t : AnsibleNodeType)
    (cs : List AnsibleNode) (r : Option AnsibleReference) :
    (AnsibleNode.mk s e t cs r).Reference = r := rfl

@[simp] theorem YAMLNode.yaml_Kind_mk (k l : Int) (v : String) (cs : List YAMLNode) :
    (YAMLNode.mk k l v cs).Kind = k := rfl

@[simp] theorem YAMLNode.yaml_Line_mk (k l : Int) (v : String) (cs : List YAMLNode) :
    (YAMLNode.mk k l v cs).Line = l := rfl

@[simp] theorem YAMLNode.yaml_Value_mk (k l : Int) (v : String) (cs : List YAMLNode) :
    (YAMLNode.mk k l v cs).Value = v := rfl

@[simp] theorem YAMLNode.yaml_Children_mk (k l : Int) (v : String) (cs : List YAMLNode) :
    (YAMLNode.mk k l v cs).Children = cs := rfl

/-! ## Position lookup -/

theorem inRange_iff (num low high : Int) :
    inRange num low high = true ↔ low ≤ num ∧ num ≤ high := by
  simp [inRange]

theorem subnodes_eq (n : AnsibleNode) : n.subnodes = n :: subnodesOfList n.Children := by
  cases n; simp [AnsibleNode.subnodes]

theorem mem_subnodesOfList (m : AnsibleNode) (cs : List AnsibleNode) :
    m ∈ subnodesOfList cs ↔ ∃ c ∈ cs, m ∈ c.subnodes := by
  induction cs with
  | nil => simp [subnodesOfList]
  | cons c cs ih => simp [subnodesOfList, ih]

theorem mem_subnodes_self (n : AnsibleNode) : n ∈ n.subnodes := by
  rw [subnodes_eq]; exact List.mem_cons_self _ _

theorem mem_subnodes_iff (m n : AnsibleNode) :
    m ∈ n.subnodes ↔ m = n ∨ ∃ c ∈ n.Children, m ∈ c.subnodes := by
  rw [subnodes_eq, List.mem_cons, mem_subnodesOfList]

theorem mem_subnodes_trans (d m : AnsibleNode) (hd : d ∈ m.subnodes) :
    ∀ n : AnsibleNode, m ∈ n.subnodes → d ∈ n.subnodes := by
  intro n
  induction n using AnsibleNode.ast_induction with
  | step s e t cs r ih =>
    intro hm
    rcases (mem_subnodes_iff _ _).mp hm with h | ⟨c, hc, h⟩
    · exact h ▸ hd
    · exact (mem_subnodes_iff _ _).mpr (Or.inr ⟨c, hc, ih c hc h⟩)

theorem locateNode_eq (n : AnsibleNode) (row : Int) :
    locateNode n row =
      if inRange row n.StartLine n.EndLine then
        match locateNodeLoop n.Children row with
        | some childNode => some childNode
        | none => some n
      else none := by
  cases n; simp [locateNode]

theorem locateNode_isSome (n : AnsibleNode) (row : Int) :
    (locateNode n row).isSome = inRange row n.StartLine n.EndLine := by
  rw [locateNode_eq]
  split
  · split <;> simp [*]
  · simp [*]

theorem locateNode_eq_none (n : AnsibleNode) (row : Int) :
    locateNode n row = none ↔ inRange row n.StartLine n.EndLine = false := by
  rw [← locateNode_isSome]; cases locateNode n row <;> simp

/-- The loop returns what `locateNode` returns on the first child whose
interval contains the row. -/
theorem locateNodeLoop_eq_find (cs : List AnsibleNode) (row : Int) :
    locateNodeLoop cs row =
      match cs.find? (fun c => inRange row c.StartLine c.EndLine) with
      | some c => locateNode c row
      | none => none := by
  induction cs with
  | nil => simp [locateNodeLoop]
  | cons c cs ih =>
    rw [locateNodeLoop, List.find?_cons]
    cases h : inRange row c.StartLine c.EndLine
    · rw [(locateNode_eq_none c row).mpr h]; simpa using ih
    · have : (locateNode c row).isSome = true := by rw [locateNode_isSome, h]
      obtain ⟨m, hm⟩ := Option.isSome_iff_exists.mp this
      simp [hm]

theorem locateNode_some (row : Int) (n : AnsibleNode) :
    ∀ m, locateNode n row = some m →
      m ∈ n.subnodes ∧ inRange row m.StartLine m.EndLine = true ∧
      ∀ c ∈ m.Children, inRange row c.StartLine c.EndLine = false := by
  induction n using AnsibleNode.ast_induction with
  | step s e t cs r ih =>
    intro m hm
    rw [locateNode_eq, locateNodeLoop_eq_find] at hm
    simp only [AnsibleNode.StartLine_mk, AnsibleNode.EndLine_mk, AnsibleNode.Children_mk] at hm
    split at hm
    · rename_i hin
      cases hf : cs.find? (fun c => inRange row c.StartLine c.EndLine) with
      | none =>
        rw [hf] at hm
        simp at hm
        subst hm
        refine ⟨mem_subnodes_self _, hin, ?_⟩
        intro c hc
        have := List.find?_eq_none.mp hf c hc
        simpa using this
      | some c =>
        rw [hf] at hm
        have hc : c ∈ cs := List.mem_of_find?_eq_some hf
        cases hl : locateNode c row with
        | none =>
          have hs := List.find?_some hf
          rw [(locateNode_eq_none c row).mp hl] at hs
          cases hs
        | some m2 =>
          have hl2 : locateNode c row = some m := by
            rw [hl]; simpa [hl] using hm
          obtain ⟨h1, h2, h3⟩ := ih c hc m hl2
          exact ⟨(mem_subnodes_iff _ _).mpr (Or.inr ⟨c, hc, h1⟩), h2, h3⟩
    · simp at hm

theorem covers_iff_inRange (n : AnsibleNode) (row : Int) :
    n.covers row ↔ inRange row n.StartLine n.EndLine = true := by
  rw [inRange_iff]; rfl

/-- In a tree with nested intervals, the interval of every node of a subtree
lies within the interval of the subtree's root. -/
theorem nested_subnodes_within (n : AnsibleNode) :
    n.nested → ∀ d ∈ n.subnodes, n.StartLine ≤ d.StartLine ∧ d.EndLine ≤ n.EndLine := by
  induction n using AnsibleNode.ast_induction with
  | step s e t cs r ih =>
    intro hn d hd
    rcases (mem_subnodes_iff _ _).mp hd with h | ⟨c, hc, h⟩
    · subst h; exact ⟨le_refl _, le_refl _⟩
    · have hcn : c.nested := fun p hp q hq =>
        hn p ((mem_subnodes_iff _ _).mpr (Or.inr ⟨c, hc, hp⟩)) q hq
      have h1 := ih c hc hcn d h
      have h2 := hn _ (mem_subnodes_self _) c hc
      simp only [AnsibleNode.StartLine_mk, AnsibleNode.EndLine_mk] at h2 ⊢
      omega

theorem locateSpec_eq_locateNode (row : Int) (n : AnsibleNode) :
    locateSpec n row = locateNode n row := by
  induction n using AnsibleNode.ast_induction with
  | step s e t cs r ih =>
    have hscan : locateSpecScan cs row = locateNodeLoop cs row := by
      induction cs with
      | nil => simp [locateSpecScan, locateNodeLoop]
      | cons c cs ihc =>
        rw [locateSpecScan, locateNodeLoop, ihc (fun d hd => ih d (List.mem_cons_of_mem _ hd)),
          ih c (List.mem_cons_self _ _)]
        by_cases hc : c.StartLine ≤ row ∧ row ≤ c.EndLine
        · have : (locateNode c row).isSome = true := by
            rw [locateNode_isSome, inRange_iff]; exact hc
          obtain ⟨m, hm⟩ := Option.isSome_iff_exists.mp this
          simp [hc, hm]
        · have : locateNode c row = none := by
            rw [locateNode_eq_none, ← Bool.not_eq_true, inRange_iff]; exact hc
          simp [hc, this]
    rw [locateSpec, locateNode, hscan]
    by_cases h : inRange row s e = true
    · have h2 := (inRange_iff _ _ _).mp h
      have : ¬ (row < s ∨ row > e) := by omega
      simp [h, this]
    · have h2 : ¬ (s ≤ row ∧ row ≤ e) := fun hh => h ((inRange_iff _ _ _).mpr hh)
      have : row < s ∨ row > e := by omega
      simp [h, this]

/-- C1. For every tree and every row: outside the root's interval the lookup
returns nothing; inside it, the lookup returns a node whose own interval
contains the row. -/
theorem locateNode_contract (root : AnsibleNode) (row : Int) :
    ((row < root.StartLine ∨ row > root.EndLine) → locateNode root row = none) ∧
    ((root.StartLine ≤ row ∧ row ≤ root.EndLine) →
      ∃ n, locateNode root row = some n ∧ n.StartLine ≤ row ∧ row ≤ n.EndLine) := by
  constructor
  · intro h
    rw [locateNode_eq_none, ← Bool.not_eq_true, inRange_iff]
    omega
  · intro h
    have : (locateNode root row).isSome = true := by
      rw [locateNode_isSome, inRange_iff]; exact h
    obtain ⟨n, hn⟩ := Option.isSome_iff_exists.mp this
    exact ⟨n, hn, (inRange_iff _ _ _).mp (locateNode_some row root n hn).2.1⟩

/-- C2. The lookup is the specified first-match descent: it agrees with
`locateSpec` on every tree and row; and when the root's interval contains the
row, it is the lookup in the first child, in order, whose interval contains
the row (so its result is a node of that child's subtree, whatever the sizes
of the intervals of later children), and the root itself when no child's
interval contains the row. -/
theorem locateNode_first_match (root : AnsibleNode) (row : Int) :
    locateNode root row = locateSpec root row ∧
    (¬ root.covers row → locateNode root row = none) ∧
    (root.covers row →
      match root.Children.find? (fun c => decide (c.covers row)) with
      | some c => locateNode root row = locateNode c row ∧
          ∃ n, locateNode root row = some n ∧ n ∈ c.subnodes
      | none => locateNode root row = some root) := by
  refine ⟨(locateSpec_eq_locateNode row root).symm, ?_, ?_⟩
  · intro h
    rw [locateNode_eq_none, ← Bool.not_eq_true, ← covers_iff_inRange]; exact h
  · intro h
    have hfun : (fun c : AnsibleNode => decide (c.covers row)) =
        (fun c => inRange row c.StartLine c.EndLine) := by
      funext c
      cases hc : inRange row c.StartLine c.EndLine
      · simp [covers_iff_inRange, hc]
      · simp [covers_iff_inRange, hc]
    have hr : inRange row root.StartLine root.EndLine = true := (covers_iff_inRange _ _).mp h
    have heq := locateNode_eq root row
    rw [locateNodeLoop_eq_find, if_pos hr] at heq
    rw [hfun]
    cases hf : root.Children.find? (fun c => inRange row c.StartLine c.EndLine) with
    | none => rw [hf] at heq; simpa using heq
    | some c =>
      rw [hf] at heq
      have hs := List.find?_some hf
      have : (locateNode c row).isSome = true := by rw [locateNode_isSome]; exact hs
      obtain ⟨m, hm⟩ := Option.isSome_iff_exists.mp this
      simp only [hm] at heq
      refine ⟨by rw [heq, hm], m, heq, (locateNode_some row c m hm).1⟩

/-- C3. In a tree whose intervals are nested, for a row inside the root's
interval, the lookup returns a node none of whose proper descendants has an
interval containing the row. -/
theorem locateNode_innermost (root : AnsibleNode) (row : Int)
    (hnested : root.nested) (hrow : root.covers row) :
    ∃ n, locateNode root row = some n ∧ ∀ d ∈ n.descendants, ¬ d.covers row := by
  have : (locateNode root row).isSome = true := by
    rw [locateNode_isSome]; exact (covers_iff_inRange _ _).mp hrow
  obtain ⟨n, hn⟩ := Option.isSome_iff_exists.mp this
  obtain ⟨hmem, -, hch⟩ := locateNode_some row root n hn
  refine ⟨n, hn, ?_⟩
  intro d hd hcov
  obtain ⟨c, hc, hdc⟩ := (mem_subnodesOfList d n.Children).mp hd
  have hcn : c.nested := fun p hp q hq =>
    hnested p (mem_subnodes_trans p n
      ((mem_subnodes_iff _ _).mpr (Or.inr ⟨c, hc, hp⟩)) root hmem) q hq
  have hw := nested_subnodes_within c hcn d hdc
  have hcc : c.covers row := ⟨le_trans hw.1 hcov.1, le_trans hcov.2 hw.2⟩
  have := hch c hc
  rw [(covers_iff_inRange _ _).mp hcc] at this
  cases this

/-- Witness of C1 on the sample tree: row 5 lies outside, row 2 inside. -/
theorem locateNode_contract_witness :
    locateNode sampleTree 5 = none ∧
    ∃ n, locateNode sampleTree 2 = some n ∧ n.StartLine ≤ 2 ∧ 2 ≤ n.EndLine :=
  ⟨(locateNode_contract sampleTree 5).1 (by decide),
   (locateNode_contract sampleTree 2).2 (by decide)⟩

/-- Witness of C3 on the sample tree at row 2. -/
theorem locateNode_innermost_witness :
    sampleTree.nested ∧ sampleTree.covers 2 ∧
    ∃ n, locateNode sampleTree 2 = some n ∧ ∀ d ∈ n.descendants, ¬ d.covers 2 :=
  have h1 : sampleTree.nested := by unfold AnsibleNode.nested; decide
  have h2 : sampleTree.covers 2 := by decide
  ⟨h1, h2, locateNode_innermost sampleTree 2 h1 h2⟩

/-! ## Generic trees -/

theorem yaml_subnodes_eq (n : YAMLNode) :
    n.subnodes = n :: yamlSubnodesOfList n.Children := by
  cases n; simp [YAMLNode.subnodes]

theorem mem_yamlSubnodesOfList (m : YAMLNode) (cs : List YAMLNode) :
    m ∈ yamlSubnodesOfList cs ↔ ∃ c ∈ cs, m ∈ c.subnodes := by
  induction cs with
  | nil => simp [yamlSubnodesOfList]
  | cons c cs ih => simp [yamlSubnodesOfList, ih]

theorem yaml_mem_subnodes_self (n : YAMLNode) : n ∈ n.subnodes := by
  rw [yaml_subnodes_eq]; exact List.mem_cons_self _ _

theorem yaml_mem_subnodes_iff (m n : YAMLNode) :
    m ∈ n.subnodes ↔ m = n ∨ ∃ c ∈ n.Children, m ∈ c.subnodes := by
  rw [yaml_subnodes_eq, List.mem_cons, mem_yamlSubnodesOfList]

theorem yaml_mem_descendants_iff (m n : YAMLNode) :
    m ∈ n.descendants ↔ ∃ c ∈ n.Children, m ∈ c.subnodes :=
  mem_yamlSubnodesOfList m n.Children

theorem yaml_descendants_sub (m n : YAMLNode) (h : m ∈ n.descendants) : m ∈ n.subnodes :=
  (yaml_mem_subnodes_iff m n).mpr (Or.inr ((yaml_mem_descendants_iff m n).mp h))

theorem yaml_child_mem_descendants (c n : YAMLNode) (h : c ∈ n.Children) :
    c ∈ n.descendants :=
  (yaml_mem_descendants_iff c n).mpr ⟨c, h, yaml_mem_subnodes_self c⟩

theorem yaml_mem_subnodes_trans (d m : YAMLNode) (hd : d ∈ m.subnodes) :
    ∀ n : YAMLNode, m ∈ n.subnodes → d ∈ n.subnodes := by
  intro n
  induction n using YAMLNode.yaml_induction with
  | step k l v cs ih =>
    intro hm
    rcases (yaml_mem_subnodes_iff _ _).mp hm with h | ⟨c, hc, h⟩
    · exact h ▸ hd
    · exact (yaml_mem_subnodes_iff _ _).mpr (Or.inr ⟨c, hc, ih c hc h⟩)

theorem yaml_mem_descendants_trans (d m n : YAMLNode) (hd : d ∈ m.descendants)
    (hm : m ∈ n.subnodes) : d ∈ n.descendants := by
  rcases (yaml_mem_subnodes_iff _ _).mp hm with h | ⟨c, hc, h⟩
  · exact h ▸ hd
  · exact (yaml_mem_descendants_iff _ _).mpr
      ⟨c, hc, yaml_mem_subnodes_trans d m (yaml_descendants_sub d m hd) c h⟩

/-! ## The last-line rule -/

theorem lineCount_pos (str : String) : 1 ≤ lineCount str := by
  unfold lineCount
  have h : str.toList.splitOn '\n' ≠ [] := List.splitOnP_ne_nil _ _
  have := List.length_pos.mpr h
  omega

theorem lastLine_eq (n : YAMLNode) :
    lastLine n =
      if n.Kind = scalarNode then n.Line + (lineCount n.Value - 1)
      else lastLineLoop n.Children n.Line := by
  cases n; simp [lastLine]

theorem lastLineLoop_ge (cs : List YAMLNode) : ∀ line, line ≤ lastLineLoop cs line := by
  induction cs with
  | nil => intro line; simp [lastLineLoop]
  | cons c cs ih =>
    intro line
    rw [lastLineLoop]
    by_cases hgt : lastLine c > line
    · simp only [hgt, if_true]; have := ih (lastLine c); omega
    · simp only [hgt, if_false]; exact ih line

theorem lastLineLoop_ge_child (cs : List YAMLNode) :
    ∀ line, ∀ c ∈ cs, lastLine c ≤ lastLineLoop cs line := by
  induction cs with
  | nil => intro line c hc; cases hc
  | cons d cs ih =>
    intro line c hc
    rw [lastLineLoop]
    rcases List.mem_cons.mp hc with h | h
    · subst h
      by_cases hgt : lastLine c > line
      · simp only [hgt, if_true]; exact lastLineLoop_ge cs _
      · simp only [hgt, if_false]; have := lastLineLoop_ge cs line; omega
    · exact ih _ c h

theorem lastLine_ge_line (n : YAMLNode) : n.Line ≤ lastLine n := by
  rw [lastLine_eq]
  split
  · have := lineCount_pos n.Value; omega
  · exact lastLineLoop_ge _ _

theorem lastLine_child_le (n c : YAMLNode) (hk : n.Kind ≠ scalarNode)
    (hc : c ∈ n.Children) : lastLine c ≤ lastLine n := by
  rw [lastLine_eq n, if_neg hk]
  exact lastLineLoop_ge_child _ _ c hc

theorem wellFormed_of_mem (g n : YAMLNode) (hg : g.wellFormed) (hn : n ∈ g.subnodes) :
    n.wellFormed :=
  fun d hd => hg d (yaml_mem_subnodes_trans d n hd g hn)

/-- In a well-formed generic tree the span of every node of a subtree lies
within the span of the subtree's root. -/
theorem wellFormed_subnodes_within (n : YAMLNode) :
    n.wellFormed → ∀ d ∈ n.subnodes, n.Line ≤ d.Line ∧ lastLine d ≤ lastLine n := by
  induction n using YAMLNode.yaml_induction with
  | step k l v cs ih =>
    intro hn d hd
    rcases (yaml_mem_subnodes_iff _ _).mp hd with h | ⟨c, hc, h⟩
    · subst h; exact ⟨le_refl _, le_refl _⟩
    · have hc2 : c ∈ (YAMLNode.mk k l v cs).subnodes :=
        (yaml_mem_subnodes_iff _ _).mpr (Or.inr ⟨c, hc, yaml_mem_subnodes_self c⟩)
      have h1 := ih c hc (wellFormed_of_mem _ c hn hc2) d h
      have h2 := hn _ (yaml_mem_subnodes_self _)
      have hk : (YAMLNode.mk k l v cs).Kind ≠ scalarNode := by
        intro hs
        have := h2.1 hs
        simp only [YAMLNode.yaml_Children_mk] at this
        rw [this] at hc; cases hc
      have h3 := lastLine_child_le (YAMLNode.mk k l v cs) c hk hc
      have h4 := h2.2 c hc
      exact ⟨le_trans h4 h1.1, le_trans h1.2 h3⟩

/-! ## Key lookup -/

theorem deref_eq_ok {α : Type} (r : Except Fault (Option α)) (a : α) :
    deref r = Except.ok a ↔ r = Except.ok (some a) := by
  match r with
  | Except.error e => simp [deref]
  | Except.ok none => simp [deref]
  | Except.ok (some b) => simp [deref]

theorem mapKeyValueLoop_mem (key : String) (v : YAMLNode) :
    ∀ (cs : List YAMLNode), mapKeyValueLoop cs key = Except.ok (some v) → v ∈ cs
  | [], h => by simp [mapKeyValueLoop] at h
  | [k], h => by
    unfold mapKeyValueLoop at h
    split at h <;> simp at h
  | k :: w :: rest, h => by
    unfold mapKeyValueLoop at h
    split at h
    · simp at h; subst h; simp
    · have := mapKeyValueLoop_mem key v rest h
      simp [this]

theorem deref_mapKeyValue_mem (node : YAMLNode) (key : String) (v : YAMLNode)
    (h : deref (mapKeyValue node key) = Except.ok v) : v ∈ node.Children :=
  mapKeyValueLoop_mem key v node.Children ((deref_eq_ok _ _).mp h)

/-! ## The shape of what the classifier returns -/

/-- Induction over a generic tree along the classifier's recursion, which
goes from a task list to the values of its elements' keys: a property holds
of every node when it holds of a node as soon as it holds of the children of
its children. -/
theorem YAMLNode.induction_grandchildren {motive : YAMLNode → Prop}
    (step : ∀ g : YAMLNode, (∀ e ∈ g.Children, ∀ b ∈ e.Children, motive b) → motive g)
    (g : YAMLNode) : motive g := by
  have key : motive g ∧ ∀ c ∈ g.Children, motive c := by
    induction g using YAMLNode.yaml_induction with
    | step k l v cs ih =>
      have hc : ∀ c ∈ cs, motive c := fun c hc => (ih c hc).1
      refine ⟨step _ ?_, hc⟩
      intro e he b hb
      exact (ih e he).2 b hb
  exact key.1

theorem parseTaskList_eq (g : YAMLNode) :
    parseTaskList g =
      match parseTaskListLoop g.Children with
      | Except.error e => Except.error e
      | Except.ok tasks =>
        Except.ok (some (AnsibleNode.mk g.Line (lastLine g)
          AnsibleNodeType.NodeTypeTaskList tasks none)) := by
  cases g; rw [parseTaskList]; rfl

/-- The function `parseBlock` is `parseTaskList` of the value found for the
key `block`. -/
theorem parseBlock_eq :
    ∀ cs : List YAMLNode, parseBlock cs =
      match deref (mapKeyValueLoop cs "block") with
      | Except.error e => Except.error e
      | Except.ok blockTasks => parseTaskList blockTasks
  | [] => by rw [parseBlock]; rfl
  | [k] => by
    rw [parseBlock, mapKeyValueLoop]
    split <;> rfl
  | k :: v :: rest => by
    rw [parseBlock, mapKeyValueLoop]
    split
    · rfl
    · exact parseBlock_eq rest

/-- The function `parseTask` as the source writes it. -/
theorem parseTask_eq (node : YAMLNode) :
    parseTask node =
      if (mapKeys node).Has "block" then
        match deref (mapKeyValue node "block") with
        | Except.error e => Except.error e
        | Except.ok blockTasks => parseTaskList blockTasks
      else if (mapKeys node).Has "import_role" then
        match deref (mapKeyValue node "import_role") with
        | Except.error e => Except.error e
        | Except.ok importRoleNode => parseImportRole importRoleNode
      else if (mapKeys node).Has "include_role" then
        match deref (mapKeyValue node "include_role") with
        | Except.error e => Except.error e
        | Except.ok includeRoleNode => parseImportRole includeRoleNode
      else if (mapKeys node).Has "include_tasks" then
        match deref (mapKeyValue node "include_tasks") with
        | Except.error e => Except.error e
        | Except.ok includeTasksNode => parseIncludeTasks includeTasksNode
      else Except.ok none := by
  cases node; rw [parseTask, parseBlock_eq]; rfl

theorem parseTaskList_ok (g : YAMLNode) (a : AnsibleNode)
    (h : parseTaskList g = Except.ok (some a)) :
    ∃ tasks, parseTaskListLoop g.Children = Except.ok tasks ∧
      a = AnsibleNode.mk g.Line (lastLine g) AnsibleNodeType.NodeTypeTaskList tasks none := by
  rw [parseTaskList_eq] at h
  split at h
  · cases h
  · rename_i tasks ht
    refine ⟨tasks, ht, ?_⟩
    simp at h; exact h.symm

/-- The tasks gathered by the loop are, in order, the nodes returned for a
subsequence of the elements. -/
theorem parseTaskListLoop_ok (cs : List YAMLNode) :
    ∀ tasks, parseTaskListLoop cs = Except.ok tasks →
      ∃ es, List.Sublist es cs ∧
        List.Forall₂ (fun e c => parseTask e = Except.ok (some c)) es tasks := by
  induction cs with
  | nil =>
    intro tasks h
    rw [parseTaskListLoop] at h
    simp at h; subst h
    exact ⟨[], List.Sublist.refl _, List.Forall₂.nil⟩
  | cons c cs ih =>
    intro tasks h
    rw [parseTaskListLoop] at h
    split at h
    · cases h
    · rename_i task htask
      split at h
      · cases h
      · rename_i rest hrest
        simp at h; subst h
        obtain ⟨es, hsub, hall⟩ := ih rest hrest
        cases task with
        | none => exact ⟨es, List.Sublist.cons _ hsub, by simpa using hall⟩
        | some t =>
          exact ⟨c :: es, List.Sublist.cons₂ _ hsub, by
            show List.Forall₂ _ (c :: es) (t :: rest)
            exact List.Forall₂.cons htask hall⟩

theorem parseTask_ok (e : YAMLNode) (a : AnsibleNode)
    (h : parseTask e = Except.ok (some a)) :
    (∃ b ∈ e.Children, parseTaskList b = Except.ok (some a)) ∨
    (∃ v ∈ e.Children, parseImportRole v = Except.ok (some a)) ∨
    (∃ v ∈ e.Children, parseIncludeTasks v = Except.ok (some a)) := by
  rw [parseTask_eq] at h
  split at h
  · split at h
    · cases h
    · rename_i b hb
      exact Or.inl ⟨b, deref_mapKeyValue_mem _ _ _ hb, h⟩
  · split at h
    · split at h
      · cases h
      · rename_i v hv
        exact Or.inr (Or.inl ⟨v, deref_mapKeyValue_mem _ _ _ hv, h⟩)
    · split at h
      · split at h
        · cases h
        · rename_i v hv
          exact Or.inr (Or.inl ⟨v, deref_mapKeyValue_mem _ _ _ hv, h⟩)
      · split at h
        · split at h
          · cases h
          · rename_i v hv
            exact Or.inr (Or.inr ⟨v, deref_mapKeyValue_mem _ _ _ hv, h⟩)
        · cases h

theorem parseIncludeTasks_ok (v : YAMLNode) (a : AnsibleNode)
    (h : parseIncludeTasks v = Except.ok (some a)) :
    v.Kind = scalarNode ∧
    a = AnsibleNode.mk v.Line (lastLine v) AnsibleNodeType.NodeTypeIncludeTasks []
      (some { RefType := ReferenceType.TaskReference, Value := v.Value }) := by
  unfold parseIncludeTasks at h
  split at h
  · cases h
  · rename_i hk
    simp at h
    exact ⟨not_not.mp hk, h.symm⟩

theorem parseImportRole_ok (v : YAMLNode) (a : AnsibleNode)
    (h : parseImportRole v = Except.ok (some a)) :
    ∃ ref, a = AnsibleNode.mk v.Line (lastLine v) AnsibleNodeType.NodeTypeImportRole []
      (some { RefType := ReferenceType.RoleReference, Value := ref }) := by
  unfold parseImportRole at h
  split at h
  · cases h
  · split at h
    · split at h
      · cases h
      · simp at h; exact ⟨_, h.symm⟩
    · simp at h; exact ⟨_, h.symm⟩

theorem parseRole_ok (v : YAMLNode) (a : AnsibleNode)
    (h : parseRole v = Except.ok (some a)) :
    ∃ ref, a = AnsibleNode.mk v.Line (lastLine v) AnsibleNodeType.NodeTypeRole []
      (some { RefType := ReferenceType.RoleReference, Value := ref }) := by
  unfold parseRole at h
  split at h
  · simp at h; exact ⟨_, h.symm⟩
  · split at h
    · split at h
      · cases h
      · simp at h; exact ⟨_, h.symm⟩
    · cases h

theorem parseRoleListLoop_ok (cs : List YAMLNode) :
    ∀ roles, parseRoleListLoop cs = Except.ok roles →
      ∃ es, List.Sublist es cs ∧
        List.Forall₂ (fun e c => parseRole e = Except.ok (some c)) es roles := by
  induction cs with
  | nil =>
    intro roles h
    rw [parseRoleListLoop] at h
    simp at h; subst h
    exact ⟨[], List.Sublist.refl _, List.Forall₂.nil⟩
  | cons c cs ih =>
    intro roles h
    rw [parseRoleListLoop] at h
    split at h
    · cases h
    · rename_i role hrole
      split at h
      · cases h
      · rename_i rest hrest
        simp at h; subst h
        obtain ⟨es, hsub, hall⟩ := ih rest hrest
        cases role with
        | none => exact ⟨es, List.Sublist.cons _ hsub, by simpa using hall⟩
        | some t =>
          exact ⟨c :: es, List.Sublist.cons₂ _ hsub, by
            show List.Forall₂ _ (c :: es) (t :: rest)
            exact List.Forall₂.cons hrole hall⟩

theorem parseRoleList_ok (g : YAMLNode) (a : AnsibleNode)
    (h : parseRoleList g = Except.ok (some a)) :
    ∃ roles, parseRoleListLoop g.Children = Except.ok roles ∧
      a = AnsibleNode.mk g.Line (lastLine g) AnsibleNodeType.NodeTypeRoleList roles none := by
  unfold parseRoleList at h
  split at h
  · cases h
  · rename_i roles hr
    refine ⟨roles, hr, ?_⟩
    simp at h; exact h.symm

theorem parseImportPlaybook_ok (g : YAMLNode) (a : AnsibleNode)
    (h : parseImportPlaybook g = Except.ok (some a)) :
    ∃ v, deref (mapKeyValue g "import_playbook") = Except.ok v ∧ v.Kind = scalarNode ∧
      a = AnsibleNode.mk g.Line (lastLine g) AnsibleNodeType.NodeTypeImportPlaybook []
        (some { RefType := ReferenceType.PlaybookReference, Value := v.Value }) := by
  unfold parseImportPlaybook at h
  split at h
  · cases h
  · rename_i v hv
    split at h
    · cases h
    · rename_i hk
      unfold validateNodeKind at hk
      split at hk
      · cases hk
      · rename_i hkind
        simp at h
        exact ⟨v, hv, not_not.mp hkind, h.symm⟩

/-- The first loop of `parsePlay` returns, in the order of the keys it is
given, one task list for each key the mapping has. -/
theorem parsePlayLoop_ok (node : YAMLNode) (keys : StringSet) (ks : List String) :
    ∀ ts, parsePlayLoop node keys ks = Except.ok ts →
      List.Forall₂ (taskListOfKey node) (ks.filter (fun k => keys.Has k)) ts := by
  induction ks with
  | nil =>
    intro ts h
    rw [parsePlayLoop] at h
    simp at h; subst h
    exact List.Forall₂.nil
  | cons k ks ih =>
    intro ts h
    rw [parsePlayLoop] at h
    split at h
    · rename_i hk
      have hk2 : keys.Has k = false := by simpa using hk
      rw [List.filter_cons_of_neg (by simp [hk2])]
      exact ih ts h
    · rename_i hk
      have hk2 : keys.Has k = true := by simpa using hk
      split at h
      · cases h
      · rename_i v hv
        split at h
        · cases h
        · rename_i t ht
          split at h
          · cases h
          · rename_i rest hrest
            simp at h; subst h
            rw [List.filter_cons_of_pos (by simp [hk2])]
            exact List.Forall₂.cons ⟨v, hv, (deref_eq_ok _ _).mp ht⟩ (ih rest hrest)

theorem parsePlayRoles_ok (node : YAMLNode) (keys : StringSet) (rs : List AnsibleNode)
    (h : parsePlayRoles node keys = Except.ok rs) :
    List.Forall₂ (roleListOfKey node) (["roles"].filter (fun k => keys.Has k)) rs := by
  unfold parsePlayRoles at h
  split at h
  · rename_i hk
    split at h
    · cases h
    · rename_i v hv
      split at h
      · cases h
      · rename_i t ht
        simp at h; subst h
        rw [List.filter_cons_of_pos (by simp [hk])]
        exact List.Forall₂.cons ⟨v, hv, (deref_eq_ok _ _).mp ht⟩ List.Forall₂.nil
  · rename_i hk
    simp at h; subst h
    rw [List.filter_cons_of_neg (by simp [hk])]
    exact List.Forall₂.nil

theorem parsePlay_ok (g : YAMLNode) (a : AnsibleNode)
    (h : parsePlay g = Except.ok (some a)) :
    ∃ ts rs, parsePlayLoop g (mapKeys g) taskListKeys = Except.ok ts ∧
      parsePlayRoles g (mapKeys g) = Except.ok rs ∧
      a = AnsibleNode.mk g.Line (lastLine g) AnsibleNodeType.NodeTypePlay (ts ++ rs) none := by
  unfold parsePlay at h
  split at h
  · cases h
  · rename_i ts hts
    split at h
    · cases h
    · rename_i rs hrs
      simp at h
      exact ⟨ts, rs, hts, hrs, h.symm⟩

/-- The loop of `parseAnsiblePlaybook` appends one child for each element, in
order, and folds their end lines into the running maximum. -/
theorem parseAnsiblePlaybookLoop_ok (es : List YAMLNode) :
    ∀ acc endLine cs endLine2,
      parseAnsiblePlaybookLoop es acc endLine = Except.ok (cs, endLine2) →
      ∃ new, cs = acc ++ new ∧ List.Forall₂ playbookChild es new ∧
        endLine2 = runningEndLine new endLine := by
  induction es with
  | nil =>
    intro acc endLine cs endLine2 h
    rw [parseAnsiblePlaybookLoop] at h
    simp at h
    exact ⟨[], by simp [h.1], List.Forall₂.nil, by simp [runningEndLine, h.2]⟩
  | cons e es ih =>
    intro acc endLine cs endLine2 h
    rw [parseAnsiblePlaybookLoop] at h
    split at h
    · cases h
    · rename_i hk
      have hkind : e.Kind = mappingNode := by
        unfold validateNodeKind at hk
        split at hk
        · cases hk
        · rename_i hne; exact not_not.mp hne
      split at h
      · rename_i hkey
        split at h
        · cases h
        · rename_i c hc
          obtain ⟨new, h1, h2, h3⟩ := ih _ _ _ _ h
          refine ⟨c :: new, by simp [h1], ?_, by simp [runningEndLine, h3]⟩
          exact List.Forall₂.cons ⟨hkind, Or.inl ⟨hkey, (deref_eq_ok _ _).mp hc⟩⟩ h2
      · rename_i hkey
        split at h
        · cases h
        · rename_i c hc
          obtain ⟨new, h1, h2, h3⟩ := ih _ _ _ _ h
          refine ⟨c :: new, by simp [h1], ?_, by simp [runningEndLine, h3]⟩
          exact List.Forall₂.cons
            ⟨hkind, Or.inr ⟨by simpa using hkey, (deref_eq_ok _ _).mp hc⟩⟩ h2

theorem parseAnsiblePlaybook_ok (g : YAMLNode) (a : AnsibleNode)
    (h : parseAnsiblePlaybook g = Except.ok (some a)) :
    ∃ listParent cs, g.Kind = documentNode ∧ g.Children = [listParent] ∧
      listParent.Kind = sequenceNode ∧ List.Forall₂ playbookChild listParent.Children cs ∧
      a = AnsibleNode.mk listParent.Line (runningEndLine cs listParent.Line)
        AnsibleNodeType.NodeTypePlaybook cs none := by
  unfold parseAnsiblePlaybook at h
  split at h
  · cases h
  · rename_i hk
    have hkind : g.Kind = documentNode := by
      unfold validateNodeKind at hk
      split at hk
      · cases hk
      · rename_i hne; exact not_not.mp hne
    split at h
    · cases h
    · rename_i hcount
      unfold validateChildCount at hcount
      split at hcount
      · cases hcount
      · rename_i hlen
        split at h
        · cases h
        · rename_i listParent tail hch
          have htail : tail = [] := by
            rw [hch] at hlen
            simp at hlen
            exact hlen
          subst htail
          split at h
          · cases h
          · rename_i hk2
            have hkind2 : listParent.Kind = sequenceNode := by
              unfold validateNodeKind at hk2
              split at hk2
              · cases hk2
              · rename_i hne; exact not_not.mp hne
            split at h
            · cases h
            · rename_i cs endLine hloop
              obtain ⟨new, h1, h2, h3⟩ := parseAnsiblePlaybookLoop_ok _ _ _ _ _ hloop
              simp at h1; subst h1; subst h3
              simp at h
              exact ⟨listParent, cs, hkind, hch, hkind2, h2, h.symm⟩

/-! ## Provenance of the typed tree -/

theorem traced_mono (g g2 : YAMLNode) (a : AnsibleNode) (hg : g2 ∈ g.subnodes)
    (h : Traced g2 a) : Traced g a := by
  intro p hp
  obtain ⟨⟨gp, hgp, hs, hc⟩, hr⟩ := h p hp
  exact ⟨⟨gp, yaml_mem_subnodes_trans gp g2 hgp g hg, hs, hc⟩, hr⟩

theorem traced_leaf (v : YAMLNode) (t : AnsibleNodeType) (r : Option AnsibleReference)
    (ht : t.mayRefer = true) : Traced v (AnsibleNode.mk v.Line (lastLine v) t [] r) := by
  intro p hp
  rw [mem_subnodes_iff] at hp
  rcases hp with h | ⟨c, hc, _⟩
  · subst h
    refine ⟨⟨v, yaml_mem_subnodes_self v, ⟨rfl, rfl⟩, ?_⟩, ?_⟩
    · intro c hc; simp at hc
    · intro hf; simp [ht] at hf
  · simp at hc

theorem traced_node (g : YAMLNode) (t : AnsibleNodeType) (cs : List AnsibleNode)
    (hcs : ∀ c ∈ cs, ∃ v ∈ g.descendants, Spans v c ∧ Traced v c) :
    Traced g (AnsibleNode.mk g.Line (lastLine g) t cs none) := by
  intro p hp
  rw [mem_subnodes_iff] at hp
  rcases hp with h | ⟨c, hc, hpc⟩
  · subst h
    refine ⟨⟨g, yaml_mem_subnodes_self g, ⟨rfl, rfl⟩, ?_⟩, fun _ => rfl⟩
    intro c hc
    obtain ⟨v, hv, hs, _⟩ := hcs c (by simpa using hc)
    exact ⟨v, hv, hs⟩
  · obtain ⟨v, hv, _, htr⟩ := hcs c (by simpa using hc)
    exact traced_mono g v c (yaml_descendants_sub v g hv) htr p hpc

theorem parseIncludeTasks_traced (v : YAMLNode) (a : AnsibleNode)
    (h : parseIncludeTasks v = Except.ok (some a)) : Spans v a ∧ Traced v a := by
  obtain ⟨-, rfl⟩ := parseIncludeTasks_ok v a h
  exact ⟨⟨rfl, rfl⟩, traced_leaf v _ _ rfl⟩

theorem parseImportRole_traced (v : YAMLNode) (a : AnsibleNode)
    (h : parseImportRole v = Except.ok (some a)) : Spans v a ∧ Traced v a := by
  obtain ⟨ref, rfl⟩ := parseImportRole_ok v a h
  exact ⟨⟨rfl, rfl⟩, traced_leaf v _ _ rfl⟩

theorem parseRole_traced (v : YAMLNode) (a : AnsibleNode)
    (h : parseRole v = Except.ok (some a)) : Spans v a ∧ Traced v a := by
  obtain ⟨ref, rfl⟩ := parseRole_ok v a h
  exact ⟨⟨rfl, rfl⟩, traced_leaf v _ _ rfl⟩

theorem parseImportPlaybook_traced (v : YAMLNode) (a : AnsibleNode)
    (h : parseImportPlaybook v = Except.ok (some a)) : Spans v a ∧ Traced v a := by
  obtain ⟨w, -, -, rfl⟩ := parseImportPlaybook_ok v a h
  exact ⟨⟨rfl, rfl⟩, traced_leaf v _ _ rfl⟩

theorem forall₂_mem_right {α β : Type} {R : α → β → Prop} {l : List α} {m : List β}
    (h : List.Forall₂ R l m) : ∀ b ∈ m, ∃ a ∈ l, R a b := by
  induction h with
  | nil => intro b hb; cases hb
  | cons hr _ ih =>
    intro b hb
    rcases List.mem_cons.mp hb with rfl | hb2
    · exact ⟨_, List.mem_cons_self _ _, hr⟩
    · obtain ⟨a, ha, hab⟩ := ih b hb2
      exact ⟨a, List.mem_cons_of_mem _ ha, hab⟩

theorem parseTaskList_traced (g : YAMLNode) :
    ∀ a, parseTaskList g = Except.ok (some a) → Spans g a ∧ Traced g a := by
  induction g using YAMLNode.induction_grandchildren with
  | step g ih =>
    intro a h
    obtain ⟨tasks, hloop, rfl⟩ := parseTaskList_ok g a h
    refine ⟨⟨rfl, rfl⟩, traced_node g _ tasks ?_⟩
    intro c hc
    obtain ⟨es, hsub, hall⟩ := parseTaskListLoop_ok _ tasks hloop
    obtain ⟨e, he, hec⟩ := forall₂_mem_right hall c hc
    have heg : e ∈ g.Children := hsub.subset he
    have hdesc : ∀ v ∈ e.Children, v ∈ g.descendants := fun v hv =>
      (yaml_mem_descendants_iff v g).mpr
        ⟨e, heg, yaml_descendants_sub v e (yaml_child_mem_descendants v e hv)⟩
    rcases parseTask_ok e c hec with ⟨b, hb, hbc⟩ | ⟨v, hv, hvc⟩ | ⟨v, hv, hvc⟩
    · exact ⟨b, hdesc b hb, ih e heg b hb c hbc⟩
    · exact ⟨v, hdesc v hv, parseImportRole_traced v c hvc⟩
    · exact ⟨v, hdesc v hv, parseIncludeTasks_traced v c hvc⟩

theorem parseRoleList_traced (g : YAMLNode) (a : AnsibleNode)
    (h : parseRoleList g = Except.ok (some a)) : Spans g a ∧ Traced g a := by
  obtain ⟨roles, hloop, rfl⟩ := parseRoleList_ok g a h
  refine ⟨⟨rfl, rfl⟩, traced_node g _ roles ?_⟩
  intro c hc
  obtain ⟨es, hsub, hall⟩ := parseRoleListLoop_ok _ roles hloop
  obtain ⟨e, he, hec⟩ := forall₂_mem_right hall c hc
  exact ⟨e, yaml_child_mem_descendants e g (hsub.subset he), parseRole_traced e c hec⟩

theorem parsePlay_traced (g : YAMLNode) (a : AnsibleNode)
    (h : parsePlay g = Except.ok (some a)) : Spans g a ∧ Traced g a := by
  obtain ⟨ts, rs, hts, hrs, rfl⟩ := parsePlay_ok g a h
  refine ⟨⟨rfl, rfl⟩, traced_node g _ _ ?_⟩
  intro c hc
  rcases List.mem_append.mp hc with hc | hc
  · obtain ⟨k, -, v, hv, hvc⟩ := forall₂_mem_right (parsePlayLoop_ok _ _ _ ts hts) c hc
    exact ⟨v, yaml_child_mem_descendants v g (deref_mapKeyValue_mem _ _ _ hv),
      parseTaskList_traced v c hvc⟩
  · obtain ⟨k, -, v, hv, hvc⟩ := forall₂_mem_right (parsePlayRoles_ok _ _ rs hrs) c hc
    exact ⟨v, yaml_child_mem_descendants v g (deref_mapKeyValue_mem _ _ _ hv),
      parseRoleList_traced v c hvc⟩

theorem playbookChild_traced (e : YAMLNode) (c : AnsibleNode) (h : playbookChild e c) :
    Spans e c ∧ Traced e c := by
  rcases h.2 with ⟨-, h2⟩ | ⟨-, h2⟩
  · exact parseImportPlaybook_traced e c h2
  · exact parsePlay_traced e c h2

/-- The running maximum over the children of a playbook is the last line of
the sequence they were built from. -/
theorem runningEndLine_eq_lastLineLoop (es : List YAMLNode) (cs : List AnsibleNode)
    (h : List.Forall₂ playbookChild es cs) :
    ∀ line, runningEndLine cs line = lastLineLoop es line := by
  induction h with
  | nil => intro line; simp [runningEndLine, lastLineLoop]
  | cons hr _ ih =>
    intro line
    rw [runningEndLine, lastLineLoop, (playbookChild_traced _ _ hr).1.2]
    exact ih _

theorem parseAnsiblePlaybook_traced (g : YAMLNode) (a : AnsibleNode)
    (h : parseAnsiblePlaybook g = Except.ok (some a)) :
    ∃ listParent, g.Children = [listParent] ∧ Spans listParent a ∧ Traced g a := by
  obtain ⟨lp, cs, -, hch, hk, hall, rfl⟩ := parseAnsiblePlaybook_ok g a h
  have hend : runningEndLine cs lp.Line = lastLine lp := by
    rw [runningEndLine_eq_lastLineLoop _ _ hall, lastLine_eq, if_neg]
    rw [hk]; decide
  have hlp : lp ∈ g.subnodes :=
    yaml_descendants_sub lp g (yaml_child_mem_descendants lp g (by rw [hch]; simp))
  refine ⟨lp, hch, ⟨rfl, hend⟩, traced_mono g lp _ hlp ?_⟩
  rw [hend]
  refine traced_node lp _ cs ?_
  intro c hc
  obtain ⟨e, he, hec⟩ := forall₂_mem_right hall c hc
  exact ⟨e, yaml_child_mem_descendants e lp he, playbookChild_traced e c hec⟩

/-- Every node of the tree `Parse` returns has its provenance in the
document. -/
theorem Parse_traced (docNode : YAMLNode) (kind : AnsibleDocKind) (a : AnsibleNode)
    (h : Parse docNode kind = Except.ok (some a)) : Traced docNode a := by
  unfold Parse at h
  split at h
  · exact (parseAnsiblePlaybook_traced docNode a h).choose_spec.2.2
  · split at h
    · cases h
    · rename_i first rest hch
      have hf : first ∈ docNode.subnodes :=
        yaml_descendants_sub first docNode
          (yaml_child_mem_descendants first docNode (by rw [hch]; simp))
      exact traced_mono docNode first a hf (parseTaskList_traced first a h).2
  · cases h

/-! ## The invariants of the classified tree -/

theorem runningEndLine_spec (cs : List AnsibleNode) :
    ∀ start, start ≤ runningEndLine cs start ∧
      (∀ c ∈ cs, c.EndLine ≤ runningEndLine cs start) ∧
      (runningEndLine cs start = start ∨ ∃ c ∈ cs, c.EndLine = runningEndLine cs start) := by
  induction cs with
  | nil => intro start; simp [runningEndLine]
  | cons d cs ih =>
    intro start
    rw [runningEndLine]
    by_cases hgt : d.EndLine > start
    · simp only [hgt, if_true]
      obtain ⟨h1, h2, h3⟩ := ih d.EndLine
      refine ⟨by omega, ?_, ?_⟩
      · intro c hc
        rcases List.mem_cons.mp hc with rfl | hc2
        · exact h1
        · exact h2 c hc2
      · rcases h3 with h | ⟨c, hc, h⟩
        · exact Or.inr ⟨d, List.mem_cons_self _ _, h.symm⟩
        · exact Or.inr ⟨c, List.mem_cons_of_mem _ hc, h⟩
    · simp only [hgt, if_false]
      obtain ⟨h1, h2, h3⟩ := ih start
      refine ⟨h1, ?_, ?_⟩
      · intro c hc
        rcases List.mem_cons.mp hc with rfl | hc2
        · omega
        · exact h2 c hc2
      · rcases h3 with h | ⟨c, hc, h⟩
        · exact Or.inl h
        · exact Or.inr ⟨c, List.mem_cons_of_mem _ hc, h⟩

/-- In a typed tree traced in a well-formed generic tree, the interval of
every node contains the interval of each of its children. -/
theorem traced_nested (g : YAMLNode) (root : AnsibleNode) (hwf : g.wellFormed)
    (htr : Traced g root) :
    ∀ p ∈ root.subnodes, ∀ c ∈ p.Children,
      p.StartLine ≤ c.StartLine ∧ c.EndLine ≤ p.EndLine := by
  intro p hp c hc
  obtain ⟨⟨gp, hgp, hsp, hch⟩, -⟩ := htr p hp
  obtain ⟨gc, hgc, hsc⟩ := hch c hc
  have hw := wellFormed_subnodes_within gp (wellFormed_of_mem g gp hwf hgp) gc
    (yaml_descendants_sub gc gp hgc)
  rw [hsp.1, hsp.2, hsc.1, hsc.2]
  exact hw

/-- C4. For every generic tree of a decoded document (scalars are leaves, no
child starts on a line before its parent's) and every document kind on which
`Parse` succeeds, the interval of every node of the result contains the
interval of each of its children. -/
theorem Parse_nested (docNode : YAMLNode) (kind : AnsibleDocKind) (root : AnsibleNode)
    (hwf : docNode.wellFormed) (h : Parse docNode kind = Except.ok (some root)) :
    ∀ p ∈ root.subnodes, ∀ c ∈ p.Children,
      p.StartLine ≤ c.StartLine ∧ c.EndLine ≤ p.EndLine :=
  traced_nested docNode root hwf (Parse_traced docNode kind root h)

/-- Witness of C4 on the playbook `siteDoc`. -/
theorem Parse_nested_witness :
    siteDoc.wellFormed ∧
    Parse siteDoc AnsibleDocKind.PlaybookDoc = Except.ok (some siteTree) ∧
    ∀ p ∈ siteTree.subnodes, ∀ c ∈ p.Children,
      p.StartLine ≤ c.StartLine ∧ c.EndLine ≤ p.EndLine :=
  have h1 : siteDoc.wellFormed := by unfold YAMLNode.wellFormed; decide
  ⟨h1, rfl, Parse_nested siteDoc AnsibleDocKind.PlaybookDoc siteTree h1 rfl⟩

/-- C5. Every node of the tree `Parse` returns ends on or after the line it
starts on. -/
theorem Parse_endLine_ge_startLine (docNode : YAMLNode) (kind : AnsibleDocKind)
    (root : AnsibleNode) (h : Parse docNode kind = Except.ok (some root)) :
    ∀ n ∈ root.subnodes, n.EndLine ≥ n.StartLine := by
  intro n hn
  obtain ⟨⟨gn, -, hs, -⟩, -⟩ := Parse_traced docNode kind root h n hn
  rw [hs.1, hs.2]
  exact lastLine_ge_line gn

/-- Witness of C5 on the playbook `siteDoc`. -/
theorem Parse_endLine_ge_startLine_witness :
    Parse siteDoc AnsibleDocKind.PlaybookDoc = Except.ok (some siteTree) ∧
    ∀ n ∈ siteTree.subnodes, n.EndLine ≥ n.StartLine :=
  ⟨rfl, Parse_endLine_ge_startLine siteDoc AnsibleDocKind.PlaybookDoc siteTree rfl⟩

/-- C6. For every generic tree of a decoded document on which `Parse` with
the kind Playbook succeeds, the end line of the Playbook node is the maximum
end line over its direct children: no child ends after it and, when there is
a child, one of them ends on it; it is its own start line when there is no
child. -/
theorem Parse_playbook_endLine (docNode : YAMLNode) (pb : AnsibleNode)
    (hwf : docNode.wellFormed)
    (h : Parse docNode AnsibleDocKind.PlaybookDoc = Except.ok (some pb)) :
    (∀ c ∈ pb.Children, c.EndLine ≤ pb.EndLine) ∧
    (pb.Children ≠ [] → ∃ c ∈ pb.Children, c.EndLine = pb.EndLine) ∧
    (pb.Children = [] → pb.EndLine = pb.StartLine) := by
  have htr := Parse_traced docNode AnsibleDocKind.PlaybookDoc pb h
  have hnest := traced_nested docNode pb hwf htr pb (mem_subnodes_self pb)
  obtain ⟨lp, cs, -, -, -, -, rfl⟩ := parseAnsiblePlaybook_ok docNode pb h
  obtain ⟨h1, h2, h3⟩ := runningEndLine_spec cs lp.Line
  simp only [AnsibleNode.StartLine_mk, AnsibleNode.EndLine_mk, AnsibleNode.Children_mk]
    at hnest ⊢
  refine ⟨h2, ?_, ?_⟩
  · intro hne
    rcases h3 with h3 | h3
    · obtain ⟨c, cs2, rfl⟩ := List.exists_cons_of_ne_nil hne
      have hc : c ∈ c :: cs2 := List.mem_cons_self _ _
      refine ⟨c, hc, ?_⟩
      have hge : c.EndLine ≥ c.StartLine := by
        obtain ⟨⟨gn, -, hs, -⟩, -⟩ := htr c
          ((mem_subnodes_iff _ _).mpr (Or.inr ⟨c, hc, mem_subnodes_self c⟩))
        rw [hs.1, hs.2]; exact lastLine_ge_line gn
      have := (hnest c hc).1
      have := h2 c hc
      omega
    · exact h3
  · intro hnil; subst hnil; rfl

/-- Witness of C6 on the playbook `siteDoc`, whose last child, the play, ends
on the line the Playbook node ends on. -/
theorem Parse_playbook_endLine_witness :
    siteDoc.wellFormed ∧
    Parse siteDoc AnsibleDocKind.PlaybookDoc = Except.ok (some siteTree) ∧
    siteTree.Children ≠ [] ∧
    ∃ c ∈ siteTree.Children, c.EndLine = siteTree.EndLine :=
  have h1 : siteDoc.wellFormed := by unfold YAMLNode.wellFormed; decide
  have h2 : siteTree.Children ≠ [] := by decide
  ⟨h1, rfl, h2, (Parse_playbook_endLine siteDoc siteTree h1 rfl).2.1 h2⟩

/-- C7. In the tree `Parse` returns, a node whose type is none of
ImportPlaybook, ImportRole, Role and IncludeTasks has no reference. -/
theorem Parse_reference_nil (docNode : YAMLNode) (kind : AnsibleDocKind)
    (root : AnsibleNode) (h : Parse docNode kind = Except.ok (some root)) :
    ∀ n ∈ root.subnodes,
      n.NodeType ≠ AnsibleNodeType.NodeTypeImportPlaybook →
      n.NodeType ≠ AnsibleNodeType.NodeTypeImportRole →
      n.NodeType ≠ AnsibleNodeType.NodeTypeRole →
      n.NodeType ≠ AnsibleNodeType.NodeTypeIncludeTasks →
      n.Reference = none := by
  intro n hn h1 h2 h3 h4
  refine (Parse_traced docNode kind root h n hn).2 ?_
  cases ht : n.NodeType <;> simp_all [AnsibleNodeType.mayRefer]

/-- Witness of C7 on the playbook `siteDoc`. -/
theorem Parse_reference_nil_witness :
    Parse siteDoc AnsibleDocKind.PlaybookDoc = Except.ok (some siteTree) ∧
    ∀ n ∈ siteTree.subnodes,
      n.NodeType ≠ AnsibleNodeType.NodeTypeImportPlaybook →
      n.NodeType ≠ AnsibleNodeType.NodeTypeImportRole →
      n.NodeType ≠ AnsibleNodeType.NodeTypeRole →
      n.NodeType ≠ AnsibleNodeType.NodeTypeIncludeTasks →
      n.Reference = none :=
  ⟨rfl, Parse_reference_nil siteDoc AnsibleDocKind.PlaybookDoc siteTree rfl⟩

/-! ## The order of children -/

theorem listBuiltFrom_spans (v : YAMLNode) (c : AnsibleNode) (h : listBuiltFrom v c) :
    Spans v c := by
  rcases h with h | h
  · exact (parseTaskList_traced v c h).1
  · exact (parseRoleList_traced v c h).1

theorem forall₂_listBuiltFrom_lines (vs : List YAMLNode) (cs : List AnsibleNode)
    (h : List.Forall₂ listBuiltFrom vs cs) :
    vs.map YAMLNode.Line = cs.map AnsibleNode.StartLine := by
  induction h with
  | nil => rfl
  | cons hr _ ih =>
    simp only [List.map_cons, ih, (listBuiltFrom_spans _ _ hr).1]

/-- C8 as stated fails for a Play: in the play of `siteDoc` the keys come in
the order `pre_tasks`, `roles`, `tasks`, and the children of the Play node
come in the order `tasks`, `pre_tasks`, `roles`, so they are not built, in
order, from the values of the mapping. -/
theorem parsePlay_source_order_counterexample :
    ∃ p, parsePlay sitePlay = Except.ok (some p) ∧ ¬ childrenFollowKeys sitePlay p := by
  refine ⟨sitePlayTree, rfl, ?_⟩
  rintro ⟨vs, hsub, hall⟩
  have h1 := forall₂_listBuiltFrom_lines vs _ hall
  have h2 := hsub.map YAMLNode.Line
  rw [h1] at h2
  revert h2
  decide

/-! ## The children of a play -/

theorem find?_perm_of_unique {α : Type} (q : α → Bool) {l l2 : List α}
    (hp : l.Perm l2) : (l.filter q).length ≤ 1 → l.find? q = l2.find? q := by
  induction hp with
  | nil => intro _; rfl
  | cons a _ ih =>
    intro hu
    cases hq : q a
    · simp only [List.find?_cons, hq]
      apply ih
      simpa [List.filter_cons, hq] using hu
    · simp [List.find?_cons, hq]
  | swap a b l =>
    intro hu
    cases ha : q a <;> cases hb : q b <;> simp [List.find?_cons, ha, hb]
    simp [List.filter_cons, ha, hb] at hu
  | trans h1 _ ih1 ih2 =>
    intro hu
    rw [ih1 hu]
    apply ih2
    rw [← (h1.filter q).length_eq]
    exact hu

theorem keysDistinct_filter_length (key : String) (pairs : List (YAMLNode × YAMLNode))
    (h : keysDistinct pairs) :
    (pairs.filter
      (fun p => decide (p.1.Kind = scalarNode ∧ p.1.Value = key))).length ≤ 1 := by
  induction pairs with
  | nil => simp
  | cons p ps ih =>
    unfold keysDistinct at h
    rw [List.pairwise_cons] at h
    have ih2 := ih h.2
    by_cases hp : p.1.Kind = scalarNode ∧ p.1.Value = key
    · have hnone : ps.filter
          (fun p => decide (p.1.Kind = scalarNode ∧ p.1.Value = key)) = [] := by
        rw [List.filter_eq_nil_iff]
        intro q hq hqm
        have hqm2 : q.1.Kind = scalarNode ∧ q.1.Value = key := by simpa using hqm
        exact h.1 q hq ⟨hp.1, hqm2.1, hp.2.trans hqm2.2.symm⟩
      rw [List.filter_cons_of_pos (by simpa using hp), hnone]
      simp
    · rw [List.filter_cons_of_neg (by simpa using hp)]
      exact ih2

theorem mapKeyValueLoop_flattenPairs (key : String) (pairs : List (YAMLNode × YAMLNode)) :
    mapKeyValueLoop (flattenPairs pairs) key =
      Except.ok ((pairs.find?
        (fun p => decide (p.1.Kind = scalarNode ∧ p.1.Value = key))).map Prod.snd) := by
  induction pairs with
  | nil => rfl
  | cons p ps ih =>
    rw [flattenPairs, mapKeyValueLoop, List.find?_cons]
    by_cases hp : p.1.Kind = scalarNode ∧ p.1.Value = key
    · simp [hp]
    · simp only [hp, if_false, decide_False]
      exact ih

theorem mem_mapKeysLoop_flattenPairs (key : String) (pairs : List (YAMLNode × YAMLNode)) :
    key ∈ mapKeysLoop (flattenPairs pairs) ↔
      ∃ p ∈ pairs, p.1.Kind = scalarNode ∧ p.1.Value = key := by
  induction pairs with
  | nil => simp [flattenPairs, mapKeysLoop]
  | cons p ps ih =>
    rw [flattenPairs, mapKeysLoop]
    by_cases hp : p.1.Kind = scalarNode
    · simp only [hp, if_true, StringSet.Add, List.mem_cons, ih]
      constructor
      · rintro (h | ⟨q, hq, hqq⟩)
        · exact ⟨p, Or.inl rfl, hp, h.symm⟩
        · exact ⟨q, Or.inr hq, hqq⟩
      · rintro ⟨q, hq | hq, hqq⟩
        · subst hq; exact Or.inl hqq.2.symm
        · exact Or.inr ⟨q, hq, hqq⟩
    · simp only [hp, if_false, ih, List.mem_cons]
      constructor
      · rintro ⟨q, hq, hqq⟩; exact ⟨q, Or.inr hq, hqq⟩
      · rintro ⟨q, hq | hq, hqq⟩
        · subst hq; exact absurd hqq.1 hp
        · exact ⟨q, hq, hqq⟩

theorem flattenPairs_perm {pairs pairs2 : List (YAMLNode × YAMLNode)}
    (hp : pairs.Perm pairs2) : (flattenPairs pairs).Perm (flattenPairs pairs2) := by
  induction hp with
  | nil => exact List.Perm.refl _
  | cons a _ ih => exact (ih.cons a.2).cons a.1
  | swap a b l =>
    exact List.perm_append_comm_assoc [b.1, b.2] [a.1, a.2] (flattenPairs l)
  | trans _ _ ih1 ih2 => exact ih1.trans ih2

theorem lastLineLoop_perm {cs cs2 : List YAMLNode} (hp : cs.Perm cs2) :
    ∀ line, lastLineLoop cs line = lastLineLoop cs2 line := by
  induction hp with
  | nil => intro line; rfl
  | cons a _ ih => intro line; rw [lastLineLoop, lastLineLoop]; exact ih _
  | swap a b l =>
    intro line
    simp only [lastLineLoop]
    congr 1
    split_ifs <;> omega
  | trans _ _ ih1 ih2 => intro line; rw [ih1, ih2]

theorem parsePlayLoop_congr (node node2 : YAMLNode) (keys keys2 : StringSet)
    (hk : ∀ k, keys.Has k = keys2.Has k)
    (hv : ∀ k, mapKeyValue node k = mapKeyValue node2 k) :
    ∀ ks, parsePlayLoop node keys ks = parsePlayLoop node2 keys2 ks := by
  intro ks
  induction ks with
  | nil => rfl
  | cons k ks ih => rw [parsePlayLoop, parsePlayLoop, hk, hv, ih]

theorem parsePlay_congr (node node2 : YAMLNode) (hline : node.Line = node2.Line)
    (hlast : lastLine node = lastLine node2)
    (hk : ∀ k, (mapKeys node).Has k = (mapKeys node2).Has k)
    (hv : ∀ k, mapKeyValue node k = mapKeyValue node2 k) :
    parsePlay node = parsePlay node2 := by
  unfold parsePlay parsePlayRoles
  rw [parsePlayLoop_congr node node2 _ _ hk hv, hk, hv, hline, hlast]

/-- The result of `parsePlay` does not depend on the order of the key/value
pairs of a mapping without a repeated scalar key. -/
theorem parsePlay_perm (kind line : Int) (value : String)
    (pairs pairs2 : List (YAMLNode × YAMLNode))
    (hperm : pairs.Perm pairs2) (hkeys : keysDistinct pairs) :
    parsePlay (YAMLNode.mk kind line value (flattenPairs pairs2)) =
      parsePlay (YAMLNode.mk kind line value (flattenPairs pairs)) := by
  apply parsePlay_congr
  · rfl
  · rw [lastLine_eq, lastLine_eq]
    simp only [YAMLNode.yaml_Kind_mk, YAMLNode.yaml_Line_mk, YAMLNode.yaml_Value_mk,
      YAMLNode.yaml_Children_mk]
    rw [lastLineLoop_perm (flattenPairs_perm hperm)]
  · intro k
    unfold StringSet.Has mapKeys
    simp only [YAMLNode.yaml_Children_mk]
    rw [decide_eq_decide, mem_mapKeysLoop_flattenPairs, mem_mapKeysLoop_flattenPairs]
    constructor
    · rintro ⟨p, hp, h⟩; exact ⟨p, hperm.mem_iff.mpr hp, h⟩
    · rintro ⟨p, hp, h⟩; exact ⟨p, hperm.mem_iff.mp hp, h⟩
  · intro k
    unfold mapKeyValue
    simp only [YAMLNode.yaml_Children_mk]
    rw [mapKeyValueLoop_flattenPairs, mapKeyValueLoop_flattenPairs,
      find?_perm_of_unique _ hperm (keysDistinct_filter_length k pairs hkeys)]

/-- C9, as the code has it. When `parsePlay` returns a node for a mapping, the
node is a Play whose children are exactly one TaskList for each of the keys
`tasks`, `pre_tasks`, `post_tasks` the mapping has, in that order, built from
the value of the key, followed by one RoleList built from the value of
`roles` when the mapping has that key; and when no scalar key occurs twice
in the mapping, `parsePlay` returns the same node for every permutation of
the key/value pairs. -/
theorem parsePlay_fixed_order (kind line : Int) (value : String)
    (pairs : List (YAMLNode × YAMLNode)) (p : AnsibleNode)
    (h : parsePlay (YAMLNode.mk kind line value (flattenPairs pairs)) = Except.ok (some p)) :
    p.NodeType = AnsibleNodeType.NodeTypePlay ∧
    (∃ ts rs, p.Children = ts ++ rs ∧
      List.Forall₂ (taskListOfKey (YAMLNode.mk kind line value (flattenPairs pairs)))
        (taskListKeys.filter (fun k =>
          (mapKeys (YAMLNode.mk kind line value (flattenPairs pairs))).Has k)) ts ∧
      (∀ t ∈ ts, t.NodeType = AnsibleNodeType.NodeTypeTaskList) ∧
      List.Forall₂ (roleListOfKey (YAMLNode.mk kind line value (flattenPairs pairs)))
        (["roles"].filter (fun k =>
          (mapKeys (YAMLNode.mk kind line value (flattenPairs pairs))).Has k)) rs ∧
      (∀ r ∈ rs, r.NodeType = AnsibleNodeType.NodeTypeRoleList)) ∧
    (keysDistinct pairs → ∀ pairs2, pairs.Perm pairs2 →
      parsePlay (YAMLNode.mk kind line value (flattenPairs pairs2)) = Except.ok (some p)) := by
  obtain ⟨ts, rs, hts, hrs, rfl⟩ := parsePlay_ok _ p h
  have h1 := parsePlayLoop_ok _ _ _ ts hts
  have h2 := parsePlayRoles_ok _ _ rs hrs
  refine ⟨rfl, ⟨ts, rs, rfl, h1, ?_, h2, ?_⟩, ?_⟩
  · intro t ht
    obtain ⟨k, -, v, -, hv⟩ := forall₂_mem_right h1 t ht
    obtain ⟨tasks, -, rfl⟩ := parseTaskList_ok v t hv
    rfl
  · intro r hr
    obtain ⟨k, -, v, -, hv⟩ := forall₂_mem_right h2 r hr
    obtain ⟨roles, -, rfl⟩ := parseRoleList_ok v r hv
    rfl
  · intro hkeys pairs2 hperm
    rw [parsePlay_perm kind line value pairs pairs2 hperm hkeys]
    exact h

/-- Witness of C9: the play with the keys `hosts`, `roles`, `tasks` and the
same play with `tasks` first. -/
theorem parsePlay_fixed_order_witness :
    ∃ p, parsePlay (mapping 0 (flattenPairs playPairs)) = Except.ok (some p) ∧
      p.NodeType = AnsibleNodeType.NodeTypePlay ∧
      p.Children.map AnsibleNode.NodeType =
        [AnsibleNodeType.NodeTypeTaskList, AnsibleNodeType.NodeTypeRoleList] ∧
      keysDistinct playPairs ∧ playPairs.Perm playPairsPermuted ∧
      parsePlay (mapping 0 (flattenPairs playPairsPermuted)) = Except.ok (some p) :=
  have hk : keysDistinct playPairs := by decide
  have hp : playPairs.Perm playPairsPermuted :=
    (List.Perm.cons _ (List.Perm.swap _ _ _)).trans (List.Perm.swap _ _ _)
  ⟨_, rfl, rfl, rfl, hk, hp,
    (parsePlay_fixed_order mappingNode 0 "" playPairs _ rfl).2.2 hk playPairsPermuted hp⟩

/-- C9 as stated fails: exchanging the two `tasks` entries of a play that has
the key twice changes the node `parsePlay` returns. -/
theorem parsePlay_permutation_counterexample :
    ∃ p1 p2, repeatedKeyPairs.Perm repeatedKeyPairsSwapped ∧
      parsePlay (mapping 0 (flattenPairs repeatedKeyPairs)) = Except.ok (some p1) ∧
      parsePlay (mapping 0 (flattenPairs repeatedKeyPairsSwapped)) = Except.ok (some p2) ∧
      p1.Children.map AnsibleNode.StartLine ≠ p2.Children.map AnsibleNode.StartLine :=
  ⟨_, _, List.Perm.cons _ (List.Perm.swap _ _ _), rfl, rfl, by decide⟩

/-- C10 fails on the code: the role task file `- import_role: common` and the
playbook whose role entry is a mapping without the key `role` both have the
top-level shape their document kind requires, and `Parse` panics on them with
a nil dereference instead of leaving the entry out. -/
theorem Parse_unrecognised_entry_panics :
    importRoleScalarDoc.Kind = documentNode ∧
    importRoleScalarDoc.Children.map YAMLNode.Kind = [sequenceNode] ∧
    Parse importRoleScalarDoc AnsibleDocKind.RoleDoc = Except.error Fault.nilDereference ∧
    roleWithoutKeyDoc.Kind = documentNode ∧
    roleWithoutKeyDoc.Children.map YAMLNode.Kind = [sequenceNode] ∧
    (∀ seq ∈ roleWithoutKeyDoc.Children, ∀ e ∈ seq.Children,
      e.Kind = mappingNode ∧ (mapKeys e).Has "import_playbook" = false) ∧
    Parse roleWithoutKeyDoc AnsibleDocKind.PlaybookDoc = Except.error Fault.nilDereference ∧
    Fault.isPanic Fault.nilDereference = true :=
  ⟨rfl, rfl, rfl, rfl, rfl, by decide, rfl, rfl⟩

/-! ## Shape errors -/

/-- C11 fails on the code: for the kind Role `Parse` checks nothing. On a
document whose only child is a mapping it returns a TaskList node built from
the mapping, and on a document without children it panics on
`docNode.Children()[0]`; in neither case does it return an error. -/
theorem Parse_role_unvalidated :
    mappingRootDoc.Children.map YAMLNode.Kind = [mappingNode] ∧
    Parse mappingRootDoc AnsibleDocKind.RoleDoc =
      Except.ok (some (AnsibleNode.mk 0 0 AnsibleNodeType.NodeTypeTaskList [] none)) ∧
    Parse (document 0 []) AnsibleDocKind.RoleDoc = Except.error Fault.indexOutOfRange ∧
    Fault.isPanic Fault.indexOutOfRange = true ∧
    Parse mappingRootDoc AnsibleDocKind.PlaybookDoc =
      Except.error (Fault.unexpectedNodeKind sequenceNode mappingNode) :=
  ⟨rfl, rfl, rfl, rfl, rfl⟩

theorem mapKeyValueLoop_has (key : String) (v : YAMLNode) :
    ∀ (cs : List YAMLNode), mapKeyValueLoop cs key = Except.ok (some v) →
      StringSet.Has (mapKeysLoop cs) key = true
  | [], h => by simp [mapKeyValueLoop] at h
  | [k], h => by
    unfold mapKeyValueLoop at h
    split at h <;> simp at h
  | k :: w :: rest, h => by
    unfold mapKeyValueLoop at h
    rw [mapKeysLoop]
    split at h
    · rename_i hk
      simp [hk.1, hk.2, StringSet.Has, StringSet.Add]
    · have ih := mapKeyValueLoop_has key v rest h
      unfold StringSet.Has at ih ⊢
      simp only [decide_eq_true_eq] at ih ⊢
      split
      · exact List.mem_cons_of_mem _ ih
      · exact ih

theorem deref_mapKeyValue_has (node : YAMLNode) (key : String) (v : YAMLNode)
    (h : deref (mapKeyValue node key) = Except.ok v) : (mapKeys node).Has key = true :=
  mapKeyValueLoop_has key v node.Children ((deref_eq_ok _ _).mp h)

theorem Parse_playbook_ok (doc : YAMLNode) (r : Option AnsibleNode)
    (h : Parse doc AnsibleDocKind.PlaybookDoc = Except.ok r) :
    ∃ listParent cs, doc.Kind = documentNode ∧ doc.Children = [listParent] ∧
      listParent.Kind = sequenceNode ∧ List.Forall₂ playbookChild listParent.Children cs := by
  cases r with
  | some a =>
    obtain ⟨lp, cs, h1, h2, h3, h4, -⟩ := parseAnsiblePlaybook_ok doc a h
    exact ⟨lp, cs, h1, h2, h3, h4⟩
  | none =>
    exfalso
    change parseAnsiblePlaybook doc = Except.ok none at h
    unfold parseAnsiblePlaybook at h
    repeat (first | cases h | split at h)

theorem forall₂_mem_left {α β : Type} {R : α → β → Prop} {l : List α} {m : List β}
    (h : List.Forall₂ R l m) : ∀ a ∈ l, ∃ b ∈ m, R a b := by
  induction h with
  | nil => intro a ha; cases ha
  | cons hr _ ih =>
    intro a ha
    rcases List.mem_cons.mp ha with rfl | ha2
    · exact ⟨_, List.mem_cons_self _ _, hr⟩
    · obtain ⟨b, hb, hab⟩ := ih a ha2
      exact ⟨b, List.mem_cons_of_mem _ hb, hab⟩

/-- For the kind Playbook `Parse` returns no node whenever the root is not a
document node, or has not exactly one child, or that child is not a sequence,
or some element of the sequence, wherever it stands, is not a mapping or
pairs the key `import_playbook` with a value that is not a scalar. What it
gives instead is an error or a panic. -/
theorem Parse_playbook_no_node (doc : YAMLNode)
    (h : doc.Kind ≠ documentNode ∨ doc.Children.length ≠ 1 ∨
      (∃ seq ∈ doc.Children, seq.Kind ≠ sequenceNode) ∨
      (∃ seq ∈ doc.Children, ∃ e ∈ seq.Children,
        e.Kind ≠ mappingNode ∨
        ∃ v, deref (mapKeyValue e "import_playbook") = Except.ok v ∧ v.Kind ≠ scalarNode)) :
    ∃ f, Parse doc AnsibleDocKind.PlaybookDoc = Except.error f := by
  cases hres : Parse doc AnsibleDocKind.PlaybookDoc with
  | error f => exact ⟨f, rfl⟩
  | ok r =>
    exfalso
    obtain ⟨lp, cs, h1, h2, h3, h4⟩ := Parse_playbook_ok doc r hres
    rcases h with h | h | ⟨seq, hseq, h⟩ | ⟨seq, hseq, e, he, h⟩
    · exact h h1
    · rw [h2] at h; exact h rfl
    · rw [h2] at hseq
      have : seq = lp := by simpa using hseq
      subst this; exact h h3
    · rw [h2] at hseq
      have : seq = lp := by simpa using hseq
      subst this
      obtain ⟨c, -, hc⟩ := forall₂_mem_left h4 e he
      rcases h with h | ⟨v, hv, hk⟩
      · exact h hc.1
      · rcases hc.2 with ⟨-, hp⟩ | ⟨hno, -⟩
        · obtain ⟨w, hw, hws, -⟩ := parseImportPlaybook_ok e c hp
          rw [hv] at hw
          cases hw
          exact hk hws
        · rw [deref_mapKeyValue_has e _ v hv] at hno
          cases hno

/-! ## Task lists, role imports and roles -/

/-- The loop returns the non-nil results of `parseTask` on the elements, in
order. -/
theorem parseTaskListLoop_exact (cs : List YAMLNode) :
    ∀ tasks, parseTaskListLoop cs = Except.ok tasks →
      ∃ results : List (Option AnsibleNode),
        List.Forall₂ (fun e r => parseTask e = Except.ok r) cs results ∧
        tasks = results.reduceOption := by
  induction cs with
  | nil =>
    intro tasks h
    rw [parseTaskListLoop] at h
    simp at h; subst h
    exact ⟨[], List.Forall₂.nil, rfl⟩
  | cons c cs ih =>
    intro tasks h
    rw [parseTaskListLoop] at h
    split at h
    · cases h
    · rename_i task htask
      split at h
      · cases h
      · rename_i rest hrest
        simp at h; subst h
        obtain ⟨results, hall, rfl⟩ := ih rest hrest
        refine ⟨task :: results, List.Forall₂.cons htask hall, ?_⟩
        cases task <;> simp [List.reduceOption_cons_of_some, List.reduceOption_cons_of_none]

/-- An element for which `parseTask` returns nil, nil leaves the loop's result
as it is without the element. -/
theorem parseTaskListLoop_skip (e : YAMLNode) (he : parseTask e = Except.ok none)
    (post : List YAMLNode) :
    ∀ pre : List YAMLNode,
      parseTaskListLoop (pre ++ e :: post) = parseTaskListLoop (pre ++ post) := by
  intro pre
  induction pre with
  | nil =>
    rw [List.nil_append, List.nil_append, parseTaskListLoop, he]
    cases parseTaskListLoop post <;> simp
  | cons c pre ih =>
    rw [List.cons_append, List.cons_append, parseTaskListLoop, parseTaskListLoop, ih]

/-- C13, as the code has it. The children of the TaskList `parseTaskList`
returns are, in element order, exactly the nodes `parseTask` returns for the
elements for which it returns one. An element with none of the keys `block`,
`import_role`, `include_role` whose `include_tasks` value is not a scalar
yields no node and no error, and an element that yields no node leaves the
children as they are without it; an element with none of those three keys
whose `include_tasks` value is a scalar yields an IncludeTasks node whose
reference is the Task reference to that value. -/
theorem parseTaskList_children (node : YAMLNode) (tl : AnsibleNode)
    (h : parseTaskList node = Except.ok (some tl)) :
    (∃ results : List (Option AnsibleNode),
      List.Forall₂ (fun e r => parseTask e = Except.ok r) node.Children results ∧
      tl.Children = results.reduceOption) ∧
    (∀ e v : YAMLNode,
      (mapKeys e).Has "block" = false → (mapKeys e).Has "import_role" = false →
      (mapKeys e).Has "include_role" = false →
      deref (mapKeyValue e "include_tasks") = Except.ok v → v.Kind ≠ scalarNode →
      parseTask e = Except.ok none) ∧
    (∀ (e : YAMLNode) (pre post : List YAMLNode),
      parseTask e = Except.ok none → node.Children = pre ++ e :: post →
      ∃ tl2, parseTaskList (YAMLNode.mk node.Kind node.Line node.Value (pre ++ post)) =
          Except.ok (some tl2) ∧ tl2.Children = tl.Children) ∧
    (∀ e v : YAMLNode,
      (mapKeys e).Has "block" = false → (mapKeys e).Has "import_role" = false →
      (mapKeys e).Has "include_role" = false →
      deref (mapKeyValue e "include_tasks") = Except.ok v → v.Kind = scalarNode →
      parseTask e =
        Except.ok (some (AnsibleNode.mk v.Line (lastLine v)
          AnsibleNodeType.NodeTypeIncludeTasks []
          (some { RefType := ReferenceType.TaskReference, Value := v.Value })))) := by
  obtain ⟨tasks, hloop, rfl⟩ := parseTaskList_ok node tl h
  refine ⟨?_, ?_, ?_, ?_⟩
  · obtain ⟨results, hall, hr⟩ := parseTaskListLoop_exact _ tasks hloop
    exact ⟨results, hall, hr⟩
  · intro e v hb hir hinc hv hns
    have hhas := deref_mapKeyValue_has e _ v hv
    rw [parseTask_eq]
    simp [hb, hir, hinc, hhas, hv, parseIncludeTasks, hns]
  · intro e pre post he hch
    rw [hch, parseTaskListLoop_skip e he post pre] at hloop
    refine ⟨AnsibleNode.mk node.Line
      (lastLine (YAMLNode.mk node.Kind node.Line node.Value (pre ++ post)))
      AnsibleNodeType.NodeTypeTaskList tasks none, ?_, rfl⟩
    rw [parseTaskList_eq]
    simp only [YAMLNode.yaml_Children_mk, hloop]
    rfl
  · intro e v hb hir hinc hv hs
    have hhas := deref_mapKeyValue_has e _ v hv
    rw [parseTask_eq]
    simp [hb, hir, hinc, hhas, hv, parseIncludeTasks, hs]

/-- Witness of C13 on `sampleTasks`, whose second entry pairs
`include_tasks` with a mapping and yields no child, and on two named
entries, one with a mapping and one with a scalar under `include_tasks`. -/
theorem parseTaskList_children_witness :
    (∃ tl, parseTaskList sampleTasks = Except.ok (some tl) ∧
      tl.Children.map AnsibleNode.Reference =
        [some { RefType := ReferenceType.TaskReference, Value := "setup.yml" },
         some { RefType := ReferenceType.RoleReference, Value := "common/tasks/install" }] ∧
      ∃ results : List (Option AnsibleNode),
        List.Forall₂ (fun e r => parseTask e = Except.ok r) sampleTasks.Children results ∧
        tl.Children = results.reduceOption) ∧
    parseTask namedIncludeMapping = Except.ok none ∧
    parseTask namedIncludeScalar =
      Except.ok (some (AnsibleNode.mk 1 1 AnsibleNodeType.NodeTypeIncludeTasks []
        (some { RefType := ReferenceType.TaskReference, Value := "setup.yml" }))) :=
  ⟨⟨_, rfl, rfl, (parseTaskList_children sampleTasks _ rfl).1⟩,
   (parseTaskList_children sampleTasks _ rfl).2.1 namedIncludeMapping
     (mapping 2 [scalar 2 "file", scalar 2 "b.yml"]) rfl rfl rfl rfl (by decide),
   (parseTaskList_children sampleTasks _ rfl).2.2.2 namedIncludeScalar
     (scalar 1 "setup.yml") rfl rfl rfl rfl rfl⟩

/-- C13 as stated fails: the value of `include_tasks` in `blockAndIncludeTask`
is a mapping, not a scalar, and the element still yields a child, the
TaskList of its `block`, because `parseTask` looks for the key `block`
first. -/
theorem parseTask_include_tasks_counterexample :
    deref (mapKeyValue blockAndIncludeTask "include_tasks") =
      Except.ok (mapping 3 [scalar 3 "file", scalar 3 "b.yml"]) ∧
    (mapping 3 [scalar 3 "file", scalar 3 "b.yml"]).Kind ≠ scalarNode ∧
    (∃ c, parseTask blockAndIncludeTask = Except.ok (some c) ∧
      c.NodeType = AnsibleNodeType.NodeTypeTaskList) ∧
    ∃ tl, parseTaskList (sequence 0 [blockAndIncludeTask]) = Except.ok (some tl) ∧
      tl.Children.length = 1 :=
  ⟨rfl, by decide, ⟨_, rfl, rfl⟩, ⟨_, rfl, rfl⟩⟩

/-- C14. When the lookup of the key `name` in the value of an `import_role`
or `include_role` key finds a node, `parseImportRole` returns an ImportRole
node whose reference is the Role reference to the value of that node when the
mapping has no key `tasks_from`, and to that value followed by `/tasks/` and
the value of the `tasks_from` node when it has one. -/
theorem parseImportRole_reference (node nameNode : YAMLNode)
    (hname : deref (mapKeyValue node "name") = Except.ok nameNode) :
    ((mapKeys node).Has "tasks_from" = false →
      parseImportRole node =
        Except.ok (some (AnsibleNode.mk node.Line (lastLine node)
          AnsibleNodeType.NodeTypeImportRole []
          (some { RefType := ReferenceType.RoleReference, Value := nameNode.Value })))) ∧
    (∀ tasksFile, deref (mapKeyValue node "tasks_from") = Except.ok tasksFile →
      parseImportRole node =
        Except.ok (some (AnsibleNode.mk node.Line (lastLine node)
          AnsibleNodeType.NodeTypeImportRole []
          (some { RefType := ReferenceType.RoleReference,
                  Value := nameNode.Value ++ "/tasks/" ++ tasksFile.Value })))) := by
  constructor
  · intro hno
    unfold parseImportRole
    rw [hname]
    simp [hno]
  · intro tasksFile ht
    have hhas := deref_mapKeyValue_has node _ tasksFile ht
    unfold parseImportRole
    rw [hname]
    simp [hhas, ht]

/-- Witness of C14: `name: common` with `tasks_from: install` gives the
reference value `common/tasks/install`. -/
theorem parseImportRole_reference_witness :
    deref (mapKeyValue sampleImportRole "name") = Except.ok (scalar 5 "common") ∧
    deref (mapKeyValue sampleImportRole "tasks_from") = Except.ok (scalar 4 "install") ∧
    parseImportRole sampleImportRole =
      Except.ok (some (AnsibleNode.mk 4 5 AnsibleNodeType.NodeTypeImportRole []
        (some { RefType := ReferenceType.RoleReference, Value := "common/tasks/install" }))) :=
  ⟨rfl, rfl,
    (parseImportRole_reference sampleImportRole (scalar 5 "common") rfl).2
      (scalar 4 "install") rfl⟩

/-- The loop of `parseRoleList` returns the non-nil results of `parseRole` on
the entries, in order. -/
theorem parseRoleListLoop_exact (cs : List YAMLNode) :
    ∀ roles, parseRoleListLoop cs = Except.ok roles →
      ∃ results : List (Option AnsibleNode),
        List.Forall₂ (fun e r => parseRole e = Except.ok r) cs results ∧
        roles = results.reduceOption := by
  induction cs with
  | nil =>
    intro roles h
    rw [parseRoleListLoop] at h
    simp at h; subst h
    exact ⟨[], List.Forall₂.nil, rfl⟩
  | cons c cs ih =>
    intro roles h
    rw [parseRoleListLoop] at h
    split at h
    · cases h
    · rename_i role hrole
      split at h
      · cases h
      · rename_i rest hrest
        simp at h; subst h
        obtain ⟨results, hall, rfl⟩ := ih rest hrest
        refine ⟨role :: results, List.Forall₂.cons hrole hall, ?_⟩
        cases role <;> simp [List.reduceOption_cons_of_some, List.reduceOption_cons_of_none]

/-- C15. The children of a RoleList node are, in order, the nodes `parseRole`
returns for the entries of the sequence. For a scalar entry that is a Role
node starting on the entry's line whose reference is the Role reference to
the entry's value; for a mapping entry in which the lookup of the key `role`
finds a node, a Role node whose reference is the Role reference to that
node's value; for an entry of another kind, no node. On the playbook
`- hosts: all` / `  roles:` / `    - myrole` the lookup at the third line
returns a Role node with the reference to `myrole`. -/
theorem parseRole_entry (g e : YAMLNode) :
    (∀ rl, parseRoleList g = Except.ok (some rl) →
      ∃ results : List (Option AnsibleNode),
        List.Forall₂ (fun e r => parseRole e = Except.ok r) g.Children results ∧
        rl.Children = results.reduceOption) ∧
    (e.Kind = scalarNode →
      parseRole e = Except.ok (some (AnsibleNode.mk e.Line (lastLine e)
        AnsibleNodeType.NodeTypeRole []
        (some { RefType := ReferenceType.RoleReference, Value := e.Value })))) ∧
    (e.Kind = mappingNode → ∀ roleNode, deref (mapKeyValue e "role") = Except.ok roleNode →
      parseRole e = Except.ok (some (AnsibleNode.mk e.Line (lastLine e)
        AnsibleNodeType.NodeTypeRole []
        (some { RefType := ReferenceType.RoleReference, Value := roleNode.Value })))) ∧
    (e.Kind ≠ scalarNode → e.Kind ≠ mappingNode → parseRole e = Except.ok none) ∧
    (∃ root n, Parse sampleDoc AnsibleDocKind.PlaybookDoc = Except.ok (some root) ∧
      locateNode root (3 - 1) = some n ∧
      n.NodeType = AnsibleNodeType.NodeTypeRole ∧
      n.Reference = some { RefType := ReferenceType.RoleReference, Value := "myrole" }) := by
  refine ⟨?_, ?_, ?_, ?_, ?_⟩
  · intro rl h
    obtain ⟨roles, hloop, rfl⟩ := parseRoleList_ok g rl h
    exact parseRoleListLoop_exact _ roles hloop
  · intro hk
    unfold parseRole
    simp [hk]
  · intro hk roleNode hr
    have hns : e.Kind ≠ scalarNode := by rw [hk]; decide
    unfold parseRole
    rw [if_neg hns, if_pos hk, hr]
  · intro h1 h2
    unfold parseRole
    simp [h1, h2]
  · exact ⟨sampleTree, _, rfl, rfl, rfl, rfl⟩

/-- Witness of C15 on the entries of the role list of `siteDoc`: the scalar
`nginx` and the mapping `role: app`. -/
theorem parseRole_entry_witness :
    parseRole (scalar 5 "nginx") =
      Except.ok (some (AnsibleNode.mk 5 5 AnsibleNodeType.NodeTypeRole []
        (some { RefType := ReferenceType.RoleReference, Value := "nginx" }))) ∧
    parseRole (mapping 6 [scalar 6 "role", scalar 6 "app"]) =
      Except.ok (some (AnsibleNode.mk 6 6 AnsibleNodeType.NodeTypeRole []
        (some { RefType := ReferenceType.RoleReference, Value := "app" }))) ∧
    parseRole (sequence 7 []) = Except.ok none :=
  ⟨(parseRole_entry sampleDoc (scalar 5 "nginx")).2.1 rfl,
   (parseRole_entry sampleDoc (mapping 6 [scalar 6 "role", scalar 6 "app"])).2.2.1 rfl
     (scalar 6 "app") rfl,
   (parseRole_entry sampleDoc (sequence 7 [])).2.2.2.1 (by decide) (by decide)⟩

/-! ## The last-line rule, continued -/

theorem length_modifyHead_cons {α : Type} (x : α) (l : List (List α)) :
    (l.modifyHead (List.cons x)).length = l.length := by
  cases l <;> rfl

theorem length_splitOnP {α : Type} (p : α → Bool) (l : List α) :
    (l.splitOnP p).length = l.countP p + 1 := by
  induction l with
  | nil => simp [List.splitOnP_nil]
  | cons x xs ih =>
    rw [List.splitOnP_cons, List.countP_cons]
    cases hp : p x
    · simp [length_modifyHead_cons, ih]
    · simp [ih]

/-- The number of pieces `lineCount` counts is one more than the number of
newline characters. -/
theorem lineCount_eq_count (str : String) :
    lineCount str = (str.toList.count '\n' : Nat) + 1 := by
  unfold lineCount List.splitOn List.count
  rw [length_splitOnP]
  rfl

theorem lastLineLoop_attained (cs : List YAMLNode) :
    ∀ line, lastLineLoop cs line = line ∨ ∃ c ∈ cs, lastLine c = lastLineLoop cs line := by
  induction cs with
  | nil => intro line; exact Or.inl rfl
  | cons d cs ih =>
    intro line
    rw [lastLineLoop]
    by_cases hgt : lastLine d > line
    · simp only [hgt, if_true]
      rcases ih (lastLine d) with h | ⟨c, hc, h⟩
      · exact Or.inr ⟨d, List.mem_cons_self _ _, h.symm⟩
      · exact Or.inr ⟨c, List.mem_cons_of_mem _ hc, h⟩
    · simp only [hgt, if_false]
      rcases ih line with h | ⟨c, hc, h⟩
      · exact Or.inl h
      · exact Or.inr ⟨c, List.mem_cons_of_mem _ hc, h⟩

/-- C19. For a scalar node the last line is the node's line plus the number
of newline-separated pieces of its value minus one, that is the line plus the
number of newline characters, so the line itself for a value without a
newline. For any other node of a decoded tree it is the maximum of the last
lines of its children, no child ending after it and one of them ending on it,
and the node's own line when it has no children. -/
theorem lastLine_rule (node : YAMLNode) :
    (node.Kind = scalarNode →
      lastLine node = node.Line + lineCount node.Value - 1 ∧
      lastLine node = node.Line + (node.Value.toList.count '\n' : Nat) ∧
      (node.Value.toList.count '\n' = 0 → lastLine node = node.Line)) ∧
    (node.Kind ≠ scalarNode → node.wellFormed →
      (∀ c ∈ node.Children, lastLine c ≤ lastLine node) ∧
      (node.Children ≠ [] → ∃ c ∈ node.Children, lastLine c = lastLine node) ∧
      (node.Children = [] → lastLine node = node.Line)) := by
  constructor
  · intro hk
    have h1 : lastLine node = node.Line + lineCount node.Value - 1 := by
      rw [lastLine_eq, if_pos hk]; omega
    have h2 := lineCount_eq_count node.Value
    refine ⟨h1, by omega, ?_⟩
    intro h0
    rw [h0] at h2
    omega
  · intro hk hwf
    have heq : lastLine node = lastLineLoop node.Children node.Line := by
      rw [lastLine_eq, if_neg hk]
    have hatt := lastLineLoop_attained node.Children node.Line
    rw [← heq] at hatt
    refine ⟨fun c hc => lastLine_child_le node c hk hc, ?_, ?_⟩
    · intro hne
      rcases hatt with h | h
      · obtain ⟨c, cs2, hcs⟩ := List.exists_cons_of_ne_nil hne
        have hc : c ∈ node.Children := by rw [hcs]; exact List.mem_cons_self _ _
        have h1 := lastLine_child_le node c hk hc
        have h2 := lastLine_ge_line c
        have h3 := (hwf node (yaml_mem_subnodes_self node)).2 c hc
        exact ⟨c, hc, by omega⟩
      · exact h
    · intro hnil
      rw [heq, hnil]; rfl

/-- Witness of C19: a scalar of three lines starting on line 7, and the
play of `siteDoc`, a mapping whose last value ends on the play's last
line. -/
theorem lastLine_rule_witness :
    lastLine (scalar 7 "first\nsecond\nthird") = 7 + 2 ∧
    sitePlay.wellFormed ∧
    ∃ c ∈ sitePlay.Children, lastLine c = lastLine sitePlay :=
  have hwf : sitePlay.wellFormed := by unfold YAMLNode.wellFormed; decide
  ⟨((lastLine_rule (scalar 7 "first\nsecond\nthird")).1 rfl).2.1, hwf,
   ((lastLine_rule sitePlay).2 (by decide) hwf).2.1 (by decide)⟩

/-- C20. When `Parse` returns a Playbook node, the node starts on the line of
the root sequence and ends on the last line of that sequence, and each of its
children ends on the last line of the element it was built from. -/
theorem Parse_playbook_span (doc : YAMLNode) (pb : AnsibleNode)
    (h : Parse doc AnsibleDocKind.PlaybookDoc = Except.ok (some pb)) :
    ∃ listParent, doc.Children = [listParent] ∧
      pb.StartLine = listParent.Line ∧ pb.EndLine = lastLine listParent ∧
      List.Forall₂ (fun e c => playbookChild e c ∧ c.EndLine = lastLine e)
        listParent.Children pb.Children := by
  obtain ⟨lp, hch, hs, -⟩ := parseAnsiblePlaybook_traced doc pb h
  obtain ⟨lp2, cs, -, hch2, -, hall, rfl⟩ := parseAnsiblePlaybook_ok doc pb h
  rw [hch] at hch2
  have : lp = lp2 := by simpa using hch2
  subst this
  refine ⟨lp, hch, hs.1, hs.2, ?_⟩
  simp only [AnsibleNode.Children_mk]
  exact hall.imp (fun e c hec => ⟨hec, (playbookChild_traced e c hec).1.2⟩)

/-- Witness of C20 on `siteDoc`. -/
theorem Parse_playbook_span_witness :
    ∃ listParent, siteDoc.Children = [listParent] ∧
      siteTree.StartLine = listParent.Line ∧ siteTree.EndLine = lastLine listParent ∧
      List.Forall₂ (fun e c => playbookChild e c ∧ c.EndLine = lastLine e)
        listParent.Children siteTree.Children :=
  Parse_playbook_span siteDoc siteTree rfl

/-! ## Document kinds -/

theorem determineDocKindLoop_spec (dirs : List String) (idxs : List Nat) :
    (determineDocKindLoop dirs idxs = AnsibleDocKind.PlaybookDoc ∧
      ∃ i ∈ idxs, dirs[i]? = some "playbooks") ∨
    (determineDocKindLoop dirs idxs = AnsibleDocKind.UnknownDoc ∧
      ∀ i ∈ idxs, dirs[i]? ≠ some "playbooks") := by
  induction idxs with
  | nil => exact Or.inr ⟨rfl, fun i hi => by cases hi⟩
  | cons j rest ih =>
    rw [determineDocKindLoop]
    by_cases hj : dirs[j]? = some "playbooks"
    · rw [if_pos hj]
      exact Or.inl ⟨rfl, j, List.mem_cons_self _ _, hj⟩
    · rw [if_neg hj]
      rcases ih with ⟨h1, i, hi, h2⟩ | ⟨h1, h2⟩
      · exact Or.inl ⟨h1, i, List.mem_cons_of_mem _ hi, h2⟩
      · refine Or.inr ⟨h1, ?_⟩
        intro i hi
        rcases List.mem_cons.mp hi with rfl | hi2
        · exact hj
        · exact h2 i hi2

theorem determineDocKindDirs_cases (s : List String) :
    (rolePattern s ∧ determineDocKindDirs s = AnsibleDocKind.RoleDoc) ∨
    (¬ rolePattern s ∧ playbookPattern s ∧
      determineDocKindDirs s = AnsibleDocKind.PlaybookDoc) ∨
    (¬ rolePattern s ∧ ¬ playbookPattern s ∧
      determineDocKindDirs s = AnsibleDocKind.UnknownDoc) := by
  by_cases hr : rolePattern s
  · left
    refine ⟨hr, ?_⟩
    unfold determineDocKindDirs
    exact if_pos hr
  · right
    have heq : determineDocKindDirs s =
        determineDocKindLoop s (List.range (s.length - 1)) := by
      unfold determineDocKindDirs
      exact if_neg hr
    rcases determineDocKindLoop_spec s (List.range (s.length - 1)) with
      ⟨h1, i, hi, h2⟩ | ⟨h1, h2⟩
    · left
      refine ⟨hr, ⟨i, ?_, h2⟩, heq.trans h1⟩
      have := List.mem_range.mp hi
      omega
    · right
      refine ⟨hr, ?_, heq.trans h1⟩
      rintro ⟨i, hi, h3⟩
      exact h2 i (List.mem_range.mpr (by omega)) h3

/-- C16. For a path whose segments are `s`, `determineDocKind` returns Role
exactly when `s` matches `.../roles/<name>/tasks/<file>`; otherwise Playbook
exactly when some segment before the last is `playbooks`; otherwise Unknown.
So the segments of `playbooks/roles/x/tasks/main.yml`, which match both
patterns, give Role, and a path outside the Role pattern whose only
`playbooks` segment is the file name gives Unknown. -/
theorem determineDocKind_spec (s : List String) :
    (determineDocKindDirs s = AnsibleDocKind.RoleDoc ↔ rolePattern s) ∧
    (determineDocKindDirs s = AnsibleDocKind.PlaybookDoc ↔
      ¬ rolePattern s ∧ playbookPattern s) ∧
    (determineDocKindDirs s = AnsibleDocKind.UnknownDoc ↔
      ¬ rolePattern s ∧ ¬ playbookPattern s) ∧
    (∀ (env : Env) (fuel : Nat) (filePath : String),
      splitPath env fuel filePath = some s →
      determineDocKind env fuel filePath = some (determineDocKindDirs s)) ∧
    (rolePattern ["playbooks", "roles", "x", "tasks", "main.yml"] ∧
      playbookPattern ["playbooks", "roles", "x", "tasks", "main.yml"] ∧
      determineDocKindDirs ["playbooks", "roles", "x", "tasks", "main.yml"] =
        AnsibleDocKind.RoleDoc) ∧
    determineDocKindDirs ["site", "playbooks"] = AnsibleDocKind.UnknownDoc := by
  refine ⟨?_, ?_, ?_, ?_, ⟨by decide, ⟨0, by decide, rfl⟩, rfl⟩, rfl⟩
  · rcases determineDocKindDirs_cases s with ⟨h1, h2⟩ | ⟨h1, h2, h3⟩ | ⟨h1, h2, h3⟩
    · exact ⟨fun _ => h1, fun _ => h2⟩
    · rw [h3]; exact ⟨fun h => (by cases h), fun h => absurd h h1⟩
    · rw [h3]; exact ⟨fun h => (by cases h), fun h => absurd h h1⟩
  · rcases determineDocKindDirs_cases s with ⟨h1, h2⟩ | ⟨h1, h2, h3⟩ | ⟨h1, h2, h3⟩
    · rw [h2]; exact ⟨fun h => (by cases h), fun h => absurd h1 h.1⟩
    · exact ⟨fun _ => ⟨h1, h2⟩, fun _ => h3⟩
    · rw [h3]; exact ⟨fun h => (by cases h), fun h => absurd h.2 h2⟩
  · rcases determineDocKindDirs_cases s with ⟨h1, h2⟩ | ⟨h1, h2, h3⟩ | ⟨h1, h2, h3⟩
    · rw [h2]; exact ⟨fun h => (by cases h), fun h => absurd h1 h.1⟩
    · rw [h3]; exact ⟨fun h => (by cases h), fun h => absurd h2 h.2⟩
    · exact ⟨fun _ => ⟨h1, h2⟩, fun _ => h3⟩
  · intro env fuel filePath hs
    unfold determineDocKind
    rw [hs]; rfl

/-- Witness of C16: the file `playbooks/site.yml` of `mappingFileEnv`, whose
segments are `playbooks`, `site.yml`. -/
theorem determineDocKind_spec_witness :
    splitPath mappingFileEnv 8 "playbooks/site.yml" = some ["playbooks", "site.yml"] ∧
    determineDocKind mappingFileEnv 8 "playbooks/site.yml" =
      some AnsibleDocKind.PlaybookDoc :=
  ⟨rfl, (determineDocKind_spec ["playbooks", "site.yml"]).2.2.2.1 mappingFileEnv 8 _ rfl⟩

/-! ## Reference resolution -/

/-- The last check of `getReferencedFile`: what passes it exists. -/
theorem stat_of_checked (env : Env) (referencedPath : String)
    (h : (if referencedPath ≠ "" then
        if env.Stat referencedPath then referencedPath else ""
      else "") ≠ "") :
    env.Stat (if referencedPath ≠ "" then
        if env.Stat referencedPath then referencedPath else ""
      else "") = true := by
  by_cases h1 : referencedPath ≠ ""
  · by_cases h2 : env.Stat referencedPath = true
    · rw [if_pos h1, if_pos h2]; exact h2
    · rw [if_pos h1, if_neg h2] at h; exact absurd rfl h
  · rw [if_neg h1] at h; exact absurd rfl h

/-- The function `getReferencedFile` on a Role reference, in one equation: the
resolved candidate when the resolution succeeds on a path that is not empty
and exists, nothing otherwise. -/
theorem getReferencedFile_role_eq (env : Env) (path role : String) :
    getReferencedFile env path { RefType := ReferenceType.RoleReference, Value := role } =
      match env.EvalSymlinks (roleCandidate env path role) with
      | some resolved => if resolved ≠ "" ∧ env.Stat resolved = true then resolved else ""
      | none => "" := by
  have hc : (if ¬ env.Stat (env.Join [env.Join [env.Dir path, "roles"], role, "tasks",
        "main.yml"]) = true then env.Join [env.Join [env.Dir path, "roles"], role]
      else env.Join [env.Join [env.Dir path, "roles"], role, "tasks", "main.yml"]) =
      roleCandidate env path role := by
    unfold roleCandidate roleMainPath roleDirPath
    by_cases hm : env.Stat (env.Join [env.Join [env.Dir path, "roles"], role, "tasks",
        "main.yml"]) = true
    · rw [if_neg (not_not.mpr hm), if_pos hm]
    · rw [if_pos hm, if_neg hm]
  unfold getReferencedFile
  simp only [hc]
  cases hres : env.EvalSymlinks (roleCandidate env path role) with
  | none => simp
  | some resolved =>
    simp only
    by_cases h1 : resolved ≠ ""
    · by_cases h2 : env.Stat resolved = true
      · rw [if_pos h1, if_pos h2, if_pos ⟨h1, h2⟩]
      · rw [if_pos h1, if_neg h2, if_neg (fun hh => h2 hh.2)]
    · rw [if_neg h1, if_neg (fun hh => h1 hh.1)]

/-- C17, as the code has it. Resolving a Role reference hands
`<dir>/roles/<role>/tasks/main.yml` when it exists, and `<dir>/roles/<role>`
otherwise, to the resolution of symbolic links, and returns the resolved path
when the resolution succeeds on a path that is not empty and exists, and
nothing otherwise. A path that is returned exists. On a filesystem (where the
resolution succeeds on exactly the existing paths and gives an existing path)
it therefore returns the resolved form of `tasks/main.yml` when that file
exists, that exact path when the resolution leaves it unchanged; the resolved
form of the role directory when `tasks/main.yml` is absent and the directory
exists; and nothing when neither exists. -/
theorem getReferencedFile_role (env : Env) (path role : String) :
    (getReferencedFile env path { RefType := ReferenceType.RoleReference, Value := role } ≠ "" →
      env.Stat (getReferencedFile env path
        { RefType := ReferenceType.RoleReference, Value := role }) = true) ∧
    (env.EvalSymlinks (roleCandidate env path role) = none →
      getReferencedFile env path { RefType := ReferenceType.RoleReference, Value := role } =
        "") ∧
    (∀ resolved, env.EvalSymlinks (roleCandidate env path role) = some resolved →
      getReferencedFile env path { RefType := ReferenceType.RoleReference, Value := role } =
        if resolved ≠ "" ∧ env.Stat resolved = true then resolved else "") ∧
    (env.coherent →
      (env.Stat (roleMainPath env path role) = true →
        ∃ resolved, env.EvalSymlinks (roleMainPath env path role) = some resolved ∧
          getReferencedFile env path
            { RefType := ReferenceType.RoleReference, Value := role } = resolved) ∧
      (env.Stat (roleMainPath env path role) = true →
        env.EvalSymlinks (roleMainPath env path role) = some (roleMainPath env path role) →
        getReferencedFile env path { RefType := ReferenceType.RoleReference, Value := role } =
          roleMainPath env path role) ∧
      (env.Stat (roleMainPath env path role) = false →
        env.Stat (roleDirPath env path role) = true →
        ∃ resolved, env.EvalSymlinks (roleDirPath env path role) = some resolved ∧
          getReferencedFile env path
            { RefType := ReferenceType.RoleReference, Value := role } = resolved) ∧
      (env.Stat (roleMainPath env path role) = false →
        env.Stat (roleDirPath env path role) = false →
        getReferencedFile env path { RefType := ReferenceType.RoleReference, Value := role } =
          "")) := by
  have heq := getReferencedFile_role_eq env path role
  refine ⟨fun h => stat_of_checked env _ h, ?_, ?_, ?_⟩
  · intro hnone
    rw [heq, hnone]
  · intro resolved hres
    rw [heq, hres]
  · rintro ⟨hempty, hex, hres⟩
    have hgood : ∀ p q, env.EvalSymlinks p = some q → q ≠ "" ∧ env.Stat q = true := by
      intro p q hpq
      have hq := (hres p q hpq).2
      refine ⟨?_, hq⟩
      intro hq0
      rw [hq0, hempty] at hq
      cases hq
    have hmainc : env.Stat (roleMainPath env path role) = true →
        roleCandidate env path role = roleMainPath env path role := by
      intro hm; unfold roleCandidate; rw [if_pos hm]
    have hdirc : env.Stat (roleMainPath env path role) = false →
        roleCandidate env path role = roleDirPath env path role := by
      intro hm; unfold roleCandidate; rw [if_neg (by rw [hm]; decide)]
    refine ⟨?_, ?_, ?_, ?_⟩
    · intro hm
      obtain ⟨q, hq⟩ := hex _ hm
      refine ⟨q, hq, ?_⟩
      rw [heq, hmainc hm, hq]
      exact if_pos (hgood _ q hq)
    · intro hm hself
      rw [heq, hmainc hm, hself]
      exact if_pos (hgood _ _ hself)
    · intro hm hd
      obtain ⟨q, hq⟩ := hex _ hd
      refine ⟨q, hq, ?_⟩
      rw [heq, hdirc hm, hq]
      exact if_pos (hgood _ q hq)
    · intro hm hd
      rw [heq, hdirc hm]
      cases hr : env.EvalSymlinks (roleDirPath env path role) with
      | none => rfl
      | some q =>
        have := (hres _ q hr).1
        rw [hd] at this
        cases this

theorem plainEnv_coherent : plainEnv.coherent := by
  refine ⟨by decide, ?_, ?_⟩
  · intro p hp
    have hp2 : p = "playbooks/roles/web/tasks/main.yml" := by simpa [plainEnv] using hp
    exact ⟨p, by simp [plainEnv, hp2]⟩
  · intro p q hpq
    have h2 : p = "playbooks/roles/web/tasks/main.yml" ∧ p = q := by
      simpa [plainEnv] using hpq
    obtain ⟨h3, rfl⟩ := h2
    simp [plainEnv, h3]

theorem symlinkEnv_coherent : symlinkEnv.coherent := by
  refine ⟨by decide, ?_, ?_⟩
  · intro p hp
    have hp2 : p = "playbooks/roles/web/tasks/main.yml" ∨
        p = "/srv/roles/web/tasks/main.yml" := by simpa [symlinkEnv] using hp
    exact ⟨"/srv/roles/web/tasks/main.yml", by simp [symlinkEnv, hp2]⟩
  · intro p q hpq
    have h2 : (p = "playbooks/roles/web/tasks/main.yml" ∨
        p = "/srv/roles/web/tasks/main.yml") ∧ "/srv/roles/web/tasks/main.yml" = q := by
      simpa [symlinkEnv] using hpq
    obtain ⟨h3, rfl⟩ := h2
    simp [symlinkEnv, h3]

/-- Witness of C17 on a filesystem without symbolic links: the existing
`tasks/main.yml` of the role is returned as it is. -/
theorem getReferencedFile_role_witness :
    plainEnv.coherent ∧
    plainEnv.Stat (roleMainPath plainEnv "playbooks/site.yml" "web") = true ∧
    getReferencedFile plainEnv "playbooks/site.yml"
      { RefType := ReferenceType.RoleReference, Value := "web" } =
      "playbooks/roles/web/tasks/main.yml" :=
  ⟨plainEnv_coherent, rfl,
    ((getReferencedFile_role plainEnv "playbooks/site.yml" "web").2.2.2
      plainEnv_coherent).2.1 rfl rfl⟩

/-- C17 as stated fails: on a filesystem where
`playbooks/roles/web/tasks/main.yml` exists and is a symbolic link, the path
returned is the link's target and not that path. -/
theorem getReferencedFile_role_counterexample :
    symlinkEnv.coherent ∧
    symlinkEnv.Stat (roleMainPath symlinkEnv "playbooks/site.yml" "web") = true ∧
    roleMainPath symlinkEnv "playbooks/site.yml" "web" =
      "playbooks/roles/web/tasks/main.yml" ∧
    getReferencedFile symlinkEnv "playbooks/site.yml"
      { RefType := ReferenceType.RoleReference, Value := "web" } =
      "/srv/roles/web/tasks/main.yml" ∧
    getReferencedFile symlinkEnv "playbooks/site.yml"
      { RefType := ReferenceType.RoleReference, Value := "web" } ≠
      roleMainPath symlinkEnv "playbooks/site.yml" "web" :=
  ⟨symlinkEnv_coherent, rfl, rfl, rfl, by decide⟩

/-! ## Navigation -/

/-- C18 fails on the code: `playbooks/site.yml` is readable and of kind
Playbook, its classification fails with the error of `validateNodeKind` (the
root is a mapping), and for every row `Navigate` panics with a nil
dereference, in `locateNode` on the nil node, instead of returning an empty
result. -/
theorem Navigate_panics_after_shape_error :
    mappingFileEnv.Stat "playbooks/site.yml" = true ∧
    mappingFileEnv.ReadFile "playbooks/site.yml" = some "hosts: all\n" ∧
    determineDocKind mappingFileEnv 8 "playbooks/site.yml" =
      some AnsibleDocKind.PlaybookDoc ∧
    ParseDocument mappingFileEnv "hosts: all\n" AnsibleDocKind.PlaybookDoc =
      Except.error (Fault.unexpectedNodeKind sequenceNode mappingNode) ∧
    locateNodePtr none 0 = Except.error Fault.nilDereference ∧
    ∀ row, Navigate mappingFileEnv 8 "playbooks/site.yml" row =
      Except.error (NavigateFault.panic Fault.nilDereference) :=
  ⟨rfl, rfl, rfl, rfl, rfl, fun _ => rfl⟩

/-! ## The order of children, exactly -/

/-- C8, as the code has it. The children of a Playbook node are, in order,
the nodes built from the elements of the sequence, one for each element; the
children of a TaskList or RoleList node are, in element order, exactly the
nodes `parseTask` or `parseRole` returns for the elements for which it
returns one; the children of a Play node are exactly one list for each of the
keys `tasks`, `pre_tasks`, `post_tasks`, `roles` the mapping has, built from
the value of the key, in that fixed order, whatever the order of the keys in
the mapping. -/
theorem children_order (g : YAMLNode) (a : AnsibleNode) :
    (parseAnsiblePlaybook g = Except.ok (some a) →
      ∃ listParent, g.Children = [listParent] ∧
        List.Forall₂ playbookChild listParent.Children a.Children) ∧
    (parseTaskList g = Except.ok (some a) →
      ∃ results : List (Option AnsibleNode),
        List.Forall₂ (fun e r => parseTask e = Except.ok r) g.Children results ∧
        a.Children = results.reduceOption) ∧
    (parseRoleList g = Except.ok (some a) →
      ∃ results : List (Option AnsibleNode),
        List.Forall₂ (fun e r => parseRole e = Except.ok r) g.Children results ∧
        a.Children = results.reduceOption) ∧
    (parsePlay g = Except.ok (some a) →
      ∃ ts rs, a.Children = ts ++ rs ∧
        List.Forall₂ (taskListOfKey g)
          (taskListKeys.filter (fun k => (mapKeys g).Has k)) ts ∧
        List.Forall₂ (roleListOfKey g)
          (["roles"].filter (fun k => (mapKeys g).Has k)) rs) := by
  refine ⟨?_, ?_, ?_, ?_⟩
  · intro h
    obtain ⟨lp, cs, -, hch, -, hall, rfl⟩ := parseAnsiblePlaybook_ok g a h
    exact ⟨lp, hch, hall⟩
  · intro h
    obtain ⟨tasks, hloop, rfl⟩ := parseTaskList_ok g a h
    exact parseTaskListLoop_exact _ tasks hloop
  · intro h
    obtain ⟨roles, hloop, rfl⟩ := parseRoleList_ok g a h
    exact parseRoleListLoop_exact _ roles hloop
  · intro h
    obtain ⟨ts, rs, hts, hrs, rfl⟩ := parsePlay_ok g a h
    exact ⟨ts, rs, rfl, parsePlayLoop_ok g (mapKeys g) taskListKeys ts hts,
      parsePlayRoles_ok g (mapKeys g) rs hrs⟩

/-- Witness of C8 on `siteDoc` and `sampleTasks`: the playbook, a task list
whose second element yields no node, and the play, whose children are the
lists of `tasks`, `pre_tasks` and `roles` in that order. -/
theorem children_order_witness :
    (∃ listParent, siteDoc.Children = [listParent] ∧
        List.Forall₂ playbookChild listParent.Children siteTree.Children) ∧
    (∃ (tl : AnsibleNode) (results : List (Option AnsibleNode)),
      parseTaskList sampleTasks = Except.ok (some tl) ∧ tl.Children.length = 2 ∧
      List.Forall₂ (fun e r => parseTask e = Except.ok r) sampleTasks.Children results ∧
      tl.Children = results.reduceOption) ∧
    (∃ ts rs, sitePlayTree.Children = ts ++ rs ∧
        List.Forall₂ (taskListOfKey sitePlay) ["tasks", "pre_tasks"] ts ∧
        List.Forall₂ (roleListOfKey sitePlay) ["roles"] rs) :=
  ⟨(children_order siteDoc siteTree).1 rfl,
   ⟨_, _, rfl, rfl, ((children_order sampleTasks _).2.1 rfl).choose_spec⟩,
   (children_order sitePlay sitePlayTree).2.2.2 rfl⟩

/-! ## Shape errors behind a panic -/

/-- C12 fails on the code: the second element of `panicBeforeErrorDoc` is not
a mapping, and `Parse` does not return the error of `validateNodeKind` for it
but panics with a nil dereference in `parseRole` while classifying the first
element. Where no element panics the errors are returned: for the scalar
element of `scalarElementDoc` and for the mapping paired with
`import_playbook` in `importMappingDoc`, both after a first element
classified successfully. -/
theorem Parse_playbook_panics_before_error :
    panicBeforeErrorDoc.Kind = documentNode ∧
    (∃ seq ∈ panicBeforeErrorDoc.Children, seq.Kind = sequenceNode ∧
      ∃ e ∈ seq.Children, e.Kind ≠ mappingNode) ∧
    Parse panicBeforeErrorDoc AnsibleDocKind.PlaybookDoc =
      Except.error Fault.nilDereference ∧
    Fault.isPanic Fault.nilDereference = true ∧
    Parse scalarElementDoc AnsibleDocKind.PlaybookDoc =
      Except.error (Fault.unexpectedNodeKind mappingNode scalarNode) ∧
    Parse importMappingDoc AnsibleDocKind.PlaybookDoc =
      Except.error (Fault.unexpectedNodeKind scalarNode mappingNode) :=
  ⟨rfl, ⟨_, List.mem_cons_self _ _, rfl, _,
      List.mem_cons_of_mem _ (List.mem_cons_self _ _), by decide⟩,
    rfl, rfl, rfl, rfl⟩

end AnsibleNavigator
